import Mathlib

/-!
Shallow embedding of the core of the `ecoord` library (crates/ecoord-core) and
proofs about its specification.

Modelling conventions:
* `f64` scalars are modelled as exact rationals (`ℚ`); quaternion SLERP is
  transcendental, so it is threaded through as an explicit function argument
  `slerp : Quat → Quat → ℚ → Quat`.
* `chrono::DateTime<Utc>` timestamps are modelled as `ℤ` (nanoseconds), the
  representation the code itself uses for all time arithmetic.
* Rust `HashMap`s are modelled as association lists with insert-or-replace
  semantics; `HashSet`s as deduplicated lists or `Finset`s.
* A Rust `panic!` / `.expect(..)` is modelled as `Option.none` (for helper
  functions) or as the `PRes.diverge` outcome (for public query operations).
-/

deriving instance DecidableEq for Except

namespace Ecoord

/-- Rust `FrameId` (frames.rs): an opaque string identifier. -/
abbrev FrameId := String

/-- Rust `TransformId` (transform.rs): ordered pair of parent and child frame id.
The Rust constructor asserts `parent ≠ child`; theorems carry that hypothesis. -/
structure TransformId where
  parent_frame_id : FrameId
  child_frame_id : FrameId
deriving DecidableEq

/-- 3D vector with exact rational coordinates (model of `nalgebra::Vector3<f64>`). -/
structure Vec3 where
  x : ℚ
  y : ℚ
  z : ℚ
deriving DecidableEq

def Vec3.add (a b : Vec3) : Vec3 :=
  ⟨a.x + b.x, a.y + b.y, a.z + b.z⟩

def Vec3.sub (a b : Vec3) : Vec3 :=
  ⟨a.x - b.x, a.y - b.y, a.z - b.z⟩

def Vec3.smul (r : ℚ) (a : Vec3) : Vec3 :=
  ⟨r * a.x, r * a.y, r * a.z⟩

def Vec3.cross (a b : Vec3) : Vec3 :=
  ⟨a.y * b.z - a.z * b.y, a.z * b.x - a.x * b.z, a.x * b.y - a.y * b.x⟩

/-- Quaternion (model of `nalgebra::UnitQuaternion<f64>`). -/
structure Quat where
  w : ℚ
  x : ℚ
  y : ℚ
  z : ℚ
deriving DecidableEq

/-- Hamilton product of quaternions. -/
def Quat.mul (p q : Quat) : Quat :=
  ⟨p.w * q.w - p.x * q.x - p.y * q.y - p.z * q.z,
   p.w * q.x + p.x * q.w + p.y * q.z - p.z * q.y,
   p.w * q.y - p.x * q.z + p.y * q.w + p.z * q.x,
   p.w * q.z + p.x * q.y - p.y * q.x + p.z * q.w⟩

/-- Rotation of a vector by a unit quaternion (`v + 2w(u×v) + 2u×(u×v)`). -/
def Quat.rotate (q : Quat) (v : Vec3) : Vec3 :=
  let u : Vec3 := ⟨q.x, q.y, q.z⟩
  let t := u.cross v
  (v.add (Vec3.smul (2 * q.w) t)).add (Vec3.smul 2 (u.cross t))

/-- Rust `Transform` (transform.rs): translation + rotation. -/
structure Transform where
  translation : Vec3
  rotation : Quat
deriving DecidableEq

/-- Rust `TimedTransform` (transform.rs): timestamp (ns) + transform. -/
structure TimedTransform where
  timestamp : ℤ
  transform : Transform
deriving DecidableEq

/-- Model of `nalgebra::Isometry3<f64>`: translation + rotation. -/
structure Isometry where
  translation : Vec3
  rotation : Quat
deriving DecidableEq

/-- `Isometry3::identity()`. -/
def Isometry.identity : Isometry :=
  ⟨⟨0, 0, 0⟩, ⟨1, 0, 0, 0⟩⟩

/-- Rigid-body composition `acc * iso` of nalgebra isometries. -/
def Isometry.mul (a b : Isometry) : Isometry :=
  ⟨a.translation.add (a.rotation.rotate b.translation), a.rotation.mul b.rotation⟩

/-- `Transform::isometry` (transform.rs). -/
def Transform.isometry (t : Transform) : Isometry :=
  ⟨t.translation, t.rotation⟩

/-- `Transform::from(isometry)` (transform.rs). -/
def Transform.fromIsometry (i : Isometry) : Transform :=
  ⟨i.translation, i.rotation⟩

/-- Rust `ChannelId` (channel_info.rs): an opaque string identifier. -/
abbrev ChannelId := String

/-- Union of the error variants of ecoord-core's `Error` enums used by the
functions embedded here (error.rs and the per-module error types). -/
inductive Error where
  | InvalidChannelId : ChannelId → Error
  | InvalidFrameId : FrameId → Error
  | NoChannels : Error
  | NoTransforms : Error
  | NoTransformPath : TransformId → Error
  | MultipleTransformPaths : TransformId → Error
  | MissingTimestamp : Error
  | MissingTransforms : Error
  | NoMinValue : Error
  | NoMaxValue : Error
  | LowerBoundExceedsUpperBound : Error
  | TransformsNotSorted : ChannelId → TransformId → Error
  | ChannelTransformCollisions : ChannelId → TransformId → Error
  | DuplicateTimestamp : ℤ → Error
  | ContainsDynamicTransform : Error
deriving DecidableEq

/-- Rust `InterpolationMethod` (transform_info.rs); `Step` is the `#[default]`. -/
inductive InterpolationMethod where
  | Step : InterpolationMethod
  | Linear : InterpolationMethod
deriving DecidableEq

/-- Rust `ExtrapolationMethod`; `Constant` is the default. -/
inductive ExtrapolationMethod where
  | Constant : ExtrapolationMethod
  | Linear : ExtrapolationMethod
deriving DecidableEq

/-- Outcome of an operation that may return a typed error or panic: `diverge`
models a Rust `panic!` / failed `.expect(..)`. -/
inductive PRes (α : Type) where
  | ok : α → PRes α
  | err : Error → PRes α
  | diverge : PRes α
deriving DecidableEq

/-! ### Sample lookup helpers (utils/transform_list_utils.rs) -/

/-- Rust `slice::partition_point` on a list partitioned by `p`: length of the
initial run satisfying `p` (all call sites pass timestamp-sorted lists). -/
def partition_point {α : Type} (p : α → Bool) : List α → Nat
  | [] => 0
  | a :: l => if p a then partition_point p l + 1 else 0

/-- Rust `get_previous_transform` (utils/transform_list_utils.rs): the latest
sample with timestamp `≤ timestamp`, located via `partition_point`. -/
def get_previous_transform (transforms : List TimedTransform) (timestamp : ℤ) :
    Option TimedTransform :=
  let idx := partition_point (fun t => t.timestamp ≤ timestamp) transforms
  if idx = 0 then none else transforms[idx - 1]?

/-- Rust `get_next_transform` (utils/transform_list_utils.rs): the earliest
sample with timestamp `> timestamp`. -/
def get_next_transform (transforms : List TimedTransform) (timestamp : ℤ) :
    Option TimedTransform :=
  let idx := partition_point (fun t => t.timestamp ≤ timestamp) transforms
  if idx ≥ transforms.length then none else transforms[idx]?

/-! ### Interpolation engine (utils/transforms_interpolation.rs), as invoked
from `DynamicTransform::interpolate` on the edge's sample list. -/

/-- Rust `extrapolate_constant`: clamp to the boundary sample; the function
panics (`none`) when called with a timestamp strictly inside the sample range
or with an empty list. -/
def extrapolate_constant (transforms : List TimedTransform) (timestamp : ℤ) :
    Option Transform :=
  match transforms.head? with
  | none => none
  | some first =>
    if timestamp ≤ first.timestamp then some first.transform
    else
      match transforms.getLast? with
      | none => none
      | some last =>
        if last.timestamp ≤ timestamp then some last.transform
        else none

/-- Rust `extrapolate_linear`: extend the first (resp. last) sample interval
linearly, with unclamped weight `α`; panics (`none`) when the timestamp lies
within the sample range or when fewer than two samples exist. -/
def extrapolate_linear (slerp : Quat → Quat → ℚ → Quat)
    (transforms : List TimedTransform) (timestamp : ℤ) : Option Transform := do
  let first ← transforms.head?
  let pair : TimedTransform × TimedTransform ←
    if timestamp < first.timestamp then do
      let t1 ← transforms[0]?
      let t2 ← transforms[1]?
      pure (t1, t2)
    else do
      let last ← transforms.getLast?
      if last.timestamp < timestamp then
        -- `&transforms[transforms.len() - 2..]` panics when fewer than two
        -- samples exist (usize underflow / out-of-range slice)
        if transforms.length < 2 then none
        else do
          let t1 ← transforms[transforms.length - 2]?
          let t2 ← transforms[transforms.length - 1]?
          pure (t1, t2)
      else none
  let t1 := pair.1
  let t2 := pair.2
  let alpha : ℚ := ((timestamp : ℚ) - (t1.timestamp : ℚ)) / ((t2.timestamp : ℚ) - (t1.timestamp : ℚ))
  pure
    { translation :=
        t1.transform.translation.add
          (Vec3.smul alpha (t2.transform.translation.sub t1.transform.translation)),
      rotation := slerp t1.transform.rotation t2.transform.rotation alpha }

/-- Rust `interpolate_step_function`: greatest sample with timestamp `≤ t`,
falling back to the first sample; panics (`none`) only on an empty list. -/
def interpolate_step_function (transforms : List TimedTransform) (timestamp : ℤ) :
    Option Transform :=
  match get_previous_transform transforms timestamp with
  | some t => some t.transform
  | none => transforms.head?.map (·.transform)

/-- Rust `interpolate_linearly`: blend the bracketing pair; panics (`none`)
when either bracketing sample is missing. -/
def interpolate_linearly (slerp : Quat → Quat → ℚ → Quat)
    (transforms : List TimedTransform) (timestamp : ℤ) : Option Transform := do
  let previous ← get_previous_transform transforms timestamp
  let next ← get_next_transform transforms timestamp
  let weight : ℚ :=
    ((timestamp : ℚ) - (previous.timestamp : ℚ)) / ((next.timestamp : ℚ) - (previous.timestamp : ℚ))
  pure
    { translation :=
        (Vec3.smul (1 - weight) previous.transform.translation).add
          (Vec3.smul weight next.transform.translation),
      rotation := slerp previous.transform.rotation next.transform.rotation weight }

/-! ### Transform edges (transform_edge.rs) -/

/-- Rust `StaticTransform`. -/
structure StaticTransform where
  parent_frame_id : FrameId
  child_frame_id : FrameId
  transform : Transform
deriving DecidableEq

def StaticTransform.transform_id (s : StaticTransform) : TransformId :=
  ⟨s.parent_frame_id, s.child_frame_id⟩

/-- Rust `DynamicTransform`. -/
structure DynamicTransform where
  parent_frame_id : FrameId
  child_frame_id : FrameId
  interpolation : Option InterpolationMethod
  extrapolation : Option ExtrapolationMethod
  samples : List TimedTransform
deriving DecidableEq

def DynamicTransform.transform_id (d : DynamicTransform) : TransformId :=
  ⟨d.parent_frame_id, d.child_frame_id⟩

/-- Model of Rust's stable `sort_by_key(|s| s.timestamp)` (insertion sort is
stable, so it computes the same list as any stable sort by this key). -/
def sort_by_timestamp (l : List TimedTransform) : List TimedTransform :=
  l.insertionSort (fun a b => a.timestamp ≤ b.timestamp)

/-- The duplicate-timestamp scan of `DynamicTransform::new` over adjacent
pairs (`samples.windows(2)`), returning the second member of the first
offending pair. -/
def first_duplicate_timestamp : List TimedTransform → Option ℤ
  | [] => none
  | [_] => none
  | a :: b :: l =>
    if a.timestamp = b.timestamp then some b.timestamp
    else first_duplicate_timestamp (b :: l)

/-- Rust `DynamicTransform::new` (transform_edge.rs): reject empty sample
lists, sort by timestamp, reject duplicate timestamps. -/
def DynamicTransform.new (parent_frame_id child_frame_id : FrameId)
    (interpolation : Option InterpolationMethod)
    (extrapolation : Option ExtrapolationMethod)
    (samples : List TimedTransform) : Except Error DynamicTransform :=
  if samples.isEmpty then .error .NoTransforms
  else
    let sorted := sort_by_timestamp samples
    match first_duplicate_timestamp sorted with
    | some t => .error (.DuplicateTimestamp t)
    | none => .ok ⟨parent_frame_id, child_frame_id, interpolation, extrapolation, sorted⟩

/-- `first_sample_time` (panics on an empty sample list). -/
def DynamicTransform.first_sample_time (d : DynamicTransform) : Option ℤ :=
  d.samples.head?.map (·.timestamp)

/-- `last_sample_time` (panics on an empty sample list). -/
def DynamicTransform.last_sample_time (d : DynamicTransform) : Option ℤ :=
  d.samples.getLast?.map (·.timestamp)

def DynamicTransform.sample_timestamps (d : DynamicTransform) : List ℤ :=
  d.samples.map (·.timestamp)

/-- Rust `DynamicTransform::interpolate` (transform_edge.rs): queries outside
`[first, last)` take the extrapolation branch (note `last ≤ t`, so `t = last`
extrapolates); queries inside take the interpolation branch. -/
def DynamicTransform.interpolate (slerp : Quat → Quat → ℚ → Quat)
    (d : DynamicTransform) (timestamp : ℤ) : Option Transform := do
  let first ← d.first_sample_time
  let last ← d.last_sample_time
  if timestamp < first ∨ last ≤ timestamp then
    match d.extrapolation.getD .Constant with
    | .Constant => extrapolate_constant d.samples timestamp
    | .Linear => extrapolate_linear slerp d.samples timestamp
  else
    match d.interpolation.getD .Step with
    | .Step => interpolate_step_function d.samples timestamp
    | .Linear => interpolate_linearly slerp d.samples timestamp

/-- The branch test of `DynamicTransform::interpolate`: `true` when the query
is routed to the extrapolation branch. -/
def DynamicTransform.uses_extrapolation_branch (d : DynamicTransform) (timestamp : ℤ) : Prop :=
  ∃ first last, d.first_sample_time = some first ∧ d.last_sample_time = some last ∧
    (timestamp < first ∨ last ≤ timestamp)

/-- Rust `TransformEdge` (transform_edge.rs): tagged union of static and
dynamic edges. -/
inductive TransformEdge where
  | static : StaticTransform → TransformEdge
  | dynamic : DynamicTransform → TransformEdge
deriving DecidableEq

/-- Rust `TransformEdge::at_time`. -/
def TransformEdge.at_time (slerp : Quat → Quat → ℚ → Quat)
    (e : TransformEdge) (timestamp : ℤ) : Option Transform :=
  match e with
  | .static s => some s.transform
  | .dynamic d => d.interpolate slerp timestamp

def TransformEdge.parent_frame_id : TransformEdge → FrameId
  | .static s => s.parent_frame_id
  | .dynamic d => d.parent_frame_id

def TransformEdge.child_frame_id : TransformEdge → FrameId
  | .static s => s.child_frame_id
  | .dynamic d => d.child_frame_id

def TransformEdge.transform_id : TransformEdge → TransformId
  | .static s => s.transform_id
  | .dynamic d => d.transform_id

/-! ### Association-list model of `HashMap` -/

/-- Rust `HashMap::insert`: replace an existing binding in place, else append. -/
def insertKV {κ ν : Type} [DecidableEq κ] : List (κ × ν) → κ → ν → List (κ × ν)
  | [], k, v => [(k, v)]
  | p :: m, k, v => if p.1 = k then (k, v) :: m else p :: insertKV m k v

/-- Rust `HashMap::get`. -/
def lookupKV {κ ν : Type} [DecidableEq κ] : List (κ × ν) → κ → Option ν
  | [], _ => none
  | p :: m, k => if p.1 = k then some p.2 else lookupKV m k

/-- The key list of an association-list map. -/
def keysOf {κ ν : Type} (m : List (κ × ν)) : List κ :=
  m.map (·.1)

/-- Traverse a list through an `Option`-returning function (the behaviour of a
Rust iterator of fallible/panicking steps collected eagerly). -/
def option_traverse {α β : Type} (f : α → Option β) : List α → Option (List β)
  | [] => some []
  | a :: l =>
    match f a with
    | none => none
    | some b => (option_traverse f l).map (b :: ·)

/-! ### Frame graph (frame_graph.rs) -/

/-- Rust `FrameGraph`: a petgraph `Graph` whose nodes are the frame ids
occurring in a set of `TransformId`s and whose directed edges are those
`TransformId`s. The graph is fully determined by the edge set, which is what
the model stores (deduplicated, as the source builds it from a `HashSet`). -/
structure FrameGraph where
  edge_list : List TransformId
deriving DecidableEq

/-- Rust `FrameGraph::new` over a `HashSet<TransformId>`. -/
def FrameGraph.new (transform_ids : List TransformId) : FrameGraph :=
  ⟨transform_ids.dedup⟩

/-- Rust `FrameGraph::get_frame_ids`: all endpoints of edges (the node set). -/
def FrameGraph.get_frame_ids (g : FrameGraph) : List FrameId :=
  (g.edge_list.flatMap (fun t => [t.parent_frame_id, t.child_frame_id])).dedup

def FrameGraph.contains_frame_id (g : FrameGraph) (f : FrameId) : Bool :=
  decide (f ∈ g.get_frame_ids)

/-- Rust `FrameGraph::root_frames`: nodes with no incoming edge. -/
def FrameGraph.root_frames (g : FrameGraph) : Finset FrameId :=
  (g.get_frame_ids.filter (fun f => g.edge_list.all (fun e => e.child_frame_id ≠ f))).toFinset

/-- Rust `FrameGraph::child_frames`: nodes with no outgoing edge. -/
def FrameGraph.child_frames (g : FrameGraph) : Finset FrameId :=
  (g.get_frame_ids.filter (fun f => g.edge_list.all (fun e => e.parent_frame_id ≠ f))).toFinset

/-- Direct successors of a node along edge direction. -/
def successors (es : List TransformId) (u : FrameId) : List FrameId :=
  (es.filter (fun e => e.parent_frame_id = u)).map (·.child_frame_id)

/-- Depth-first enumeration of all simple directed paths from `u` to `target`
avoiding `visited` (model of `petgraph::algo::all_simple_paths`). -/
def simple_paths_from (es : List TransformId) :
    Nat → FrameId → FrameId → List FrameId → List (List FrameId)
  | 0, _, _, _ => []
  | fuel + 1, u, target, visited =>
    if u = target then [[u]]
    else
      ((successors es u).filter (fun v => v ∉ u :: visited)).flatMap
        (fun v => (simple_paths_from es fuel v target (u :: visited)).map (u :: ·))

/-- All simple directed paths between two nodes; the fuel bound exceeds the
node count, so every simple path is enumerated. -/
def FrameGraph.all_simple_paths (g : FrameGraph) (a b : FrameId) : List (List FrameId) :=
  simple_paths_from g.edge_list (g.get_frame_ids.length + 1) a b []

/-- Rust `FrameGraph::get_frame_id_path` (frame_graph.rs): `InvalidFrameId`
for an absent endpoint, then `NoTransformPath` / `MultipleTransformPaths` /
the unique path according to the number of simple paths. -/
def FrameGraph.get_frame_id_path (g : FrameGraph) (transform_id : TransformId) :
    Except Error (List FrameId) :=
  if transform_id.parent_frame_id ∉ g.get_frame_ids then
    .error (.InvalidFrameId transform_id.parent_frame_id)
  else if transform_id.child_frame_id ∉ g.get_frame_ids then
    .error (.InvalidFrameId transform_id.child_frame_id)
  else
    match g.all_simple_paths transform_id.parent_frame_id transform_id.child_frame_id with
    | [] => .error (.NoTransformPath transform_id)
    | [p] => .ok p
    | _ => .error (.MultipleTransformPaths transform_id)

/-- `windows(2)` of a frame path converted to `TransformId`s. -/
def window_pairs : List FrameId → List TransformId
  | a :: b :: l => ⟨a, b⟩ :: window_pairs (b :: l)
  | _ => []

/-- Rust `FrameGraph::get_transform_id_path`. -/
def FrameGraph.get_transform_id_path (g : FrameGraph) (transform_id : TransformId) :
    Except Error (List TransformId) :=
  (g.get_frame_id_path transform_id).map window_pairs

/-- The directed edge relation of a graph's edge set. -/
def edge_mem (es : List TransformId) (u v : FrameId) : Prop :=
  (⟨u, v⟩ : TransformId) ∈ es

/-- Specification-side notion: `p` is a simple directed path from `a` to `b`
over the edge set `es`. -/
def IsSimplePath (es : List TransformId) (a b : FrameId) (p : List FrameId) : Prop :=
  p.head? = some a ∧ p.getLast? = some b ∧ p.Nodup ∧ p.Chain' (edge_mem es)

/-! ### Transform tree (transform_tree.rs) -/

/-- Rust `FrameInfo` (frames.rs). -/
structure FrameInfo where
  id : FrameId
  description : Option String
  crs_epsg : Option ℕ
deriving DecidableEq

/-- `FrameInfo::new(id, Default::default(), Default::default())`. -/
def default_frame_info (id : FrameId) : FrameInfo :=
  ⟨id, none, none⟩

/-- Rust `TransformTree`: edges map, frames map and the derived frame graph. -/
structure TransformTree where
  edges : List (TransformId × TransformEdge)
  frames : List (FrameId × FrameInfo)
  frame_graph : FrameGraph
deriving DecidableEq

/-- `edges.into_iter().map(|x| (x.transform_id(), x)).collect::<HashMap<_,_>>()`. -/
def collect_edges (edges : List TransformEdge) : List (TransformId × TransformEdge) :=
  edges.foldl (fun m x => insertKV m x.transform_id x) []

/-- `frames.into_iter().map(|x| (x.id.clone(), x)).collect::<HashMap<_,_>>()`. -/
def collect_frames (frames : List FrameInfo) : List (FrameId × FrameInfo) :=
  frames.foldl (fun m x => insertKV m x.id x) []

/-- Insert a default `FrameInfo` when the frame has no binding yet. -/
def add_missing_frame (m : List (FrameId × FrameInfo)) (f : FrameId) :
    List (FrameId × FrameInfo) :=
  if (lookupKV m f).isSome then m else m ++ [(f, default_frame_info f)]

/-- The endpoint-synthesis loop of `TransformTree::new` over the edge keys. -/
def synthesize_frames (m : List (FrameId × FrameInfo)) (ids : List TransformId) :
    List (FrameId × FrameInfo) :=
  ids.foldl
    (fun m tid => add_missing_frame (add_missing_frame m tid.parent_frame_id) tid.child_frame_id)
    m

/-- Rust `TransformTree::new`: dedup edges by `TransformId`, synthesize
missing endpoint frames, build the frame graph from the edge keys. -/
def TransformTree.new (edges : List TransformEdge) (frames : List FrameInfo) : TransformTree :=
  let edge_map := collect_edges edges
  let frame_map := synthesize_frames (collect_frames frames) (keysOf edge_map)
  ⟨edge_map, frame_map, FrameGraph.new (keysOf edge_map)⟩

/-- Rust `TransformTree::insert_edge`: synthesize endpoint frames, replace the
binding under the edge's `TransformId`; the stored frame graph is not touched. -/
def TransformTree.insert_edge (t : TransformTree) (edge : TransformEdge) : TransformTree :=
  let frames :=
    add_missing_frame (add_missing_frame t.frames edge.parent_frame_id) edge.child_frame_id
  ⟨insertKV t.edges edge.transform_id edge, frames, t.frame_graph⟩

def TransformTree.root_frames (t : TransformTree) : Finset FrameId :=
  t.frame_graph.root_frames

def TransformTree.child_frames (t : TransformTree) : Finset FrameId :=
  t.frame_graph.child_frames

/-- Rust `TransformTree::get_frame_ids`: the keys of the frames map. -/
def TransformTree.get_frame_ids (t : TransformTree) : List FrameId :=
  keysOf t.frames

def TransformTree.contains_frame (t : TransformTree) (f : FrameId) : Bool :=
  (lookupKV t.frames f).isSome

def TransformTree.contains_transform (t : TransformTree) (id : TransformId) : Bool :=
  (lookupKV t.edges id).isSome

/-- Rust `TransformTree::remove_transform`: removes the edge binding only;
frames and frame graph are untouched. -/
def TransformTree.remove_transform (t : TransformTree) (transform_id : TransformId) :
    TransformTree :=
  ⟨t.edges.filter (fun p => p.1 ≠ transform_id), t.frames, t.frame_graph⟩

/-- Rust `TransformTree::static_snapshot_at`: replace every edge by a static
edge carrying `at_time(t)` and rebuild via `TransformTree::new`; `none` when
any per-edge evaluation panics. -/
def TransformTree.static_snapshot_at (slerp : Quat → Quat → ℚ → Quat)
    (t : TransformTree) (timestamp : ℤ) : Option TransformTree :=
  (option_traverse (fun (p : TransformId × TransformEdge) =>
      (p.2.at_time slerp timestamp).map (fun tr =>
        TransformEdge.static ⟨p.2.parent_frame_id, p.2.child_frame_id, tr⟩)) t.edges).map
    (fun transform_edges => TransformTree.new transform_edges (t.frames.map (·.2)))

/-- The eager `path.map(|x| edges.get(&x).expect("must exist").at_time(t))`
collection of `get_transform_at_time`; `none` models the panic. -/
def edge_transforms_at_time (slerp : Quat → Quat → ℚ → Quat)
    (edges : List (TransformId × TransformEdge)) (path : List TransformId)
    (timestamp : ℤ) : Option (List Transform) :=
  option_traverse (fun tid => (lookupKV edges tid).bind (fun e => e.at_time slerp timestamp)) path

/-- The left fold `fold(Isometry3::identity(), |acc, t| acc * t.isometry())`. -/
def fold_isometries (transforms : List Transform) : Isometry :=
  transforms.foldl (fun acc tr => acc.mul tr.isometry) Isometry.identity

/-- Rust `TransformTree::get_transform_at_time`. -/
def TransformTree.get_transform_at_time (slerp : Quat → Quat → ℚ → Quat)
    (t : TransformTree) (transform_id : TransformId) (timestamp : ℤ) : PRes Transform :=
  match t.frame_graph.get_transform_id_path transform_id with
  | .error e => .err e
  | .ok path =>
    match edge_transforms_at_time slerp t.edges path timestamp with
    | none => .diverge
    | some transforms => .ok (Transform.fromIsometry (fold_isometries transforms))

/-- The `collect::<Result<Vec<Transform>, Error>>` of `get_static_transform`:
stops at the first dynamic edge; a missing edge panics. -/
def static_edge_transforms (edges : List (TransformId × TransformEdge)) :
    List TransformId → PRes (List Transform)
  | [] => .ok []
  | tid :: rest =>
    match lookupKV edges tid with
    | none => .diverge
    | some (.dynamic _) => .err .ContainsDynamicTransform
    | some (.static s) =>
      match static_edge_transforms edges rest with
      | .ok l => .ok (s.transform :: l)
      | .err e => .err e
      | .diverge => .diverge

/-- Rust `TransformTree::get_static_transform`. -/
def TransformTree.get_static_transform (t : TransformTree) (transform_id : TransformId) :
    PRes Transform :=
  match t.frame_graph.get_transform_id_path transform_id with
  | .error e => .err e
  | .ok path =>
    match static_edge_transforms t.edges path with
    | .ok transforms => .ok (Transform.fromIsometry (fold_isometries transforms))
    | .err e => .err e
    | .diverge => .diverge

/-- The short-circuiting `all(..)` of `is_transform_path_static`. -/
def path_static_check (edges : List (TransformId × TransformEdge)) :
    List TransformId → PRes Bool
  | [] => .ok true
  | tid :: rest =>
    match lookupKV edges tid with
    | none => .diverge
    | some (.dynamic _) => .ok false
    | some (.static _) => path_static_check edges rest

/-- Rust `TransformTree::is_transform_path_static`. -/
def TransformTree.is_transform_path_static (t : TransformTree) (transform_id : TransformId) :
    PRes Bool :=
  match t.frame_graph.get_transform_id_path transform_id with
  | .error e => .err e
  | .ok path => path_static_check t.edges path

/-- Well-formedness of the two `HashMap`s of a `TransformTree` (key uniqueness
and key/value coherence), maintained by every constructor of the Rust type. -/
def TransformTree.maps_wf (t : TransformTree) : Prop :=
  (keysOf t.edges).Nodup ∧ (∀ p ∈ t.edges, TransformEdge.transform_id p.2 = p.1) ∧
  (keysOf t.frames).Nodup ∧ (∀ p ∈ t.frames, FrameInfo.id p.2 = p.1) ∧
  (∀ p ∈ t.edges, p.1.parent_frame_id ∈ keysOf t.frames ∧
    p.1.child_frame_id ∈ keysOf t.frames)

instance (t : TransformTree) : Decidable t.maps_wf := by
  unfold TransformTree.maps_wf
  infer_instance

/-- The frame graph of the tree is the one derived from its current edges, as
established by `TransformTree::new` (and invalidated by `insert_edge` /
`remove_transform`). -/
def TransformTree.graph_consistent (t : TransformTree) : Prop :=
  t.frame_graph = FrameGraph.new (keysOf t.edges)

instance (t : TransformTree) : Decidable t.graph_consistent := by
  unfold TransformTree.graph_consistent
  infer_instance

/-! ### Multi-channel model (reference_frames.rs, ops/merge.rs, ops/filter.rs)
The legacy model's `Transform` carries its own timestamp. -/

/-- Legacy `Transform` of the multi-channel model. -/
structure RFTransform where
  timestamp : ℤ
  translation : Vec3
  rotation : Quat
deriving DecidableEq

def RFTransform.isometry (t : RFTransform) : Isometry :=
  ⟨t.translation, t.rotation⟩

/-- Rust `ChannelInfo` (channel_info.rs). -/
structure ChannelInfo where
  priority : Option ℤ
deriving DecidableEq

/-- Rust `TransformInfo` as used by reference_frames.rs. -/
structure TransformInfo where
  interpolation_method : InterpolationMethod
  extrapolation_method : ExtrapolationMethod
deriving DecidableEq

/-- Rust `ReferenceFrames` (reference_frames.rs). -/
structure ReferenceFrames where
  transforms : List ((ChannelId × TransformId) × List RFTransform)
  frame_info : List (FrameId × FrameInfo)
  channel_info : List (ChannelId × ChannelInfo)
  transform_info : List (TransformId × TransformInfo)
deriving DecidableEq

/-- `is_static`: all samples share translation and rotation. -/
def rf_is_static : List RFTransform → Bool
  | [] => true
  | t :: l => l.all (fun s => s.translation = t.translation ∧ s.rotation = t.rotation)

/-- `get_previous_transform` over legacy transforms. -/
def rf_get_previous (transforms : List RFTransform) (timestamp : ℤ) : Option RFTransform :=
  let idx := partition_point (fun t => t.timestamp ≤ timestamp) transforms
  if idx = 0 then none else transforms[idx - 1]?

/-- `get_next_transform` over legacy transforms. -/
def rf_get_next (transforms : List RFTransform) (timestamp : ℤ) : Option RFTransform :=
  let idx := partition_point (fun t => t.timestamp ≤ timestamp) transforms
  if idx ≥ transforms.length then none else transforms[idx]?

/-- `extrapolate_constant` over legacy transforms. -/
def rf_extrapolate_constant (transforms : List RFTransform) (timestamp : ℤ) :
    Option Isometry :=
  match transforms.head? with
  | none => none
  | some first =>
    if timestamp ≤ first.timestamp then some first.isometry
    else
      match transforms.getLast? with
      | none => none
      | some last =>
        if last.timestamp ≤ timestamp then some last.isometry
        else none

/-- `extrapolate_linear` over legacy transforms. -/
def rf_extrapolate_linear (slerp : Quat → Quat → ℚ → Quat)
    (transforms : List RFTransform) (timestamp : ℤ) : Option Isometry := do
  let first ← transforms.head?
  let pair : RFTransform × RFTransform ←
    if timestamp < first.timestamp then do
      let t1 ← transforms[0]?
      let t2 ← transforms[1]?
      pure (t1, t2)
    else do
      let last ← transforms.getLast?
      if last.timestamp < timestamp then
        if transforms.length < 2 then none
        else do
          let t1 ← transforms[transforms.length - 2]?
          let t2 ← transforms[transforms.length - 1]?
          pure (t1, t2)
      else none
  let t1 := pair.1
  let t2 := pair.2
  let alpha : ℚ := ((timestamp : ℚ) - (t1.timestamp : ℚ)) / ((t2.timestamp : ℚ) - (t1.timestamp : ℚ))
  pure ⟨t1.translation.add (Vec3.smul alpha (t2.translation.sub t1.translation)),
        slerp t1.rotation t2.rotation alpha⟩

/-- `interpolate_step_function` over legacy transforms. -/
def rf_interpolate_step (transforms : List RFTransform) (timestamp : ℤ) : Option Isometry :=
  match rf_get_previous transforms timestamp with
  | some t => some t.isometry
  | none => transforms.head?.map (·.isometry)

/-- `interpolate_linearly` over legacy transforms. -/
def rf_interpolate_linearly (slerp : Quat → Quat → ℚ → Quat)
    (transforms : List RFTransform) (timestamp : ℤ) : Option Isometry := do
  let previous ← rf_get_previous transforms timestamp
  let next ← rf_get_next transforms timestamp
  let weight : ℚ :=
    ((timestamp : ℚ) - (previous.timestamp : ℚ)) / ((next.timestamp : ℚ) - (previous.timestamp : ℚ))
  pure ⟨(Vec3.smul (1 - weight) previous.translation).add (Vec3.smul weight next.translation),
        slerp previous.rotation next.rotation weight⟩

/-- Lift a panicking helper into a `PRes`. -/
def optionToPRes {α : Type} : Option α → PRes α
  | some a => .ok a
  | none => .diverge

/-- Lift a typed-error result into a `PRes`. -/
def exceptToPRes {α : Type} : Except Error α → PRes α
  | .ok a => .ok a
  | .error e => .err e

/-- Rust `inter_and_extrapolate_transforms` (utils/transforms_interpolation.rs):
empty input is `NoTransforms`, identical samples short-circuit (static
fast-path), a missing timestamp is `MissingTimestamp`; note the in-range test
here is `first ≤ t ≤ last` (strict `<` on both outside tests). -/
def inter_and_extrapolate_transforms (slerp : Quat → Quat → ℚ → Quat)
    (transforms : List RFTransform) (timestamp : Option ℤ)
    (interpolation_method : InterpolationMethod)
    (extrapolation_method : ExtrapolationMethod) : PRes Isometry :=
  if transforms.isEmpty then .err .NoTransforms
  else if rf_is_static transforms then
    optionToPRes (transforms.head?.map (·.isometry))
  else
    match timestamp with
    | none => .err .MissingTimestamp
    | some ts =>
      match transforms.head?, transforms.getLast? with
      | some first, some last =>
        if ts < first.timestamp ∨ last.timestamp < ts then
          match extrapolation_method with
          | .Constant => optionToPRes (rf_extrapolate_constant transforms ts)
          | .Linear => optionToPRes (rf_extrapolate_linear slerp transforms ts)
        else
          match interpolation_method with
          | .Step => optionToPRes (rf_interpolate_step transforms ts)
          | .Linear => optionToPRes (rf_interpolate_linearly slerp transforms ts)
      | _, _ => .diverge

/-- Model of the stable `sort_by_key(|t| t.timestamp)` on legacy transforms. -/
def rf_sort_by_timestamp (l : List RFTransform) : List RFTransform :=
  l.insertionSort (fun a b => a.timestamp ≤ b.timestamp)

/-- The strict-ascending check of `ReferenceFrames::new` (`windows(2)` with `<`). -/
def rf_strict_sorted : List RFTransform → Bool
  | a :: b :: l => decide (a.timestamp < b.timestamp) && rf_strict_sorted (b :: l)
  | _ => true

/-- Does any transform key reference the frame (endpoint of its `TransformId`)? -/
def references_frame (transforms : List ((ChannelId × TransformId) × List RFTransform))
    (f : FrameId) : Bool :=
  transforms.any (fun p => p.1.2.parent_frame_id = f ∨ p.1.2.child_frame_id = f)

/-- Rust `ReferenceFrames::new`: when transforms are non-empty, every listed
frame must be referenced (an `assert!`, i.e. panic), each sample vector must
be strictly ascending (else `TransformsNotSorted`); the stored vectors are
sorted by timestamp. -/
def ReferenceFrames.new (transforms : List ((ChannelId × TransformId) × List RFTransform))
    (frame_info : List (FrameId × FrameInfo))
    (channel_info : List (ChannelId × ChannelInfo))
    (transform_info : List (TransformId × TransformInfo)) : PRes ReferenceFrames :=
  let sorted := transforms.map (fun p => (p.1, rf_sort_by_timestamp p.2))
  if transforms.isEmpty then .ok ⟨sorted, frame_info, channel_info, transform_info⟩
  else if (keysOf frame_info).any (fun f => ! references_frame transforms f) then .diverge
  else
    match transforms.find? (fun p => ! rf_strict_sorted p.2) with
    | some p => .err (.TransformsNotSorted p.1.1 p.1.2)
    | none => .ok ⟨sorted, frame_info, channel_info, transform_info⟩

/-- Rust `ReferenceFrames::get_channel_ids`. -/
def ReferenceFrames.get_channel_ids (rf : ReferenceFrames) : List ChannelId :=
  (rf.transforms.map (fun p => p.1.1)).dedup

/-- Rust `ReferenceFrames::get_channel_priority`: invalid channels error;
otherwise the `ChannelInfo` priority, defaulting to `0`. -/
def ReferenceFrames.get_channel_priority (rf : ReferenceFrames) (channel_id : ChannelId) :
    Except Error ℤ :=
  if channel_id ∉ rf.get_channel_ids then .error (.InvalidChannelId channel_id)
  else .ok (((lookupKV rf.channel_info channel_id).bind (·.priority)).getD 0)

/-- The `.expect("channel should exist")` use of `get_channel_priority` inside
`derive_transform_graph`; its error branch is unreachable there because every
queried channel occurs in `transforms`. -/
def ReferenceFrames.channel_priority_of (rf : ReferenceFrames) (channel_id : ChannelId) : ℤ :=
  match rf.get_channel_priority channel_id with
  | .ok p => p
  | .error _ => 0

/-- Rust `ReferenceFrames::get_interpolation_method` (default `Step`). -/
def ReferenceFrames.get_interpolation_method (rf : ReferenceFrames) (transform_id : TransformId) :
    InterpolationMethod :=
  ((lookupKV rf.transform_info transform_id).map (·.interpolation_method)).getD .Step

/-- Rust `ReferenceFrames::get_extrapolation_method` (default `Constant`). -/
def ReferenceFrames.get_extrapolation_method (rf : ReferenceFrames) (transform_id : TransformId) :
    ExtrapolationMethod :=
  ((lookupKV rf.transform_info transform_id).map (·.extrapolation_method)).getD .Constant

/-- Rust `filter_by_channel` (ops/filter.rs). -/
def filter_by_channel (transforms : List ((ChannelId × TransformId) × List RFTransform))
    (channel_ids : List ChannelId) : List ((ChannelId × TransformId) × List RFTransform) :=
  transforms.filter (fun p => p.1.1 ∈ channel_ids)

/-- Rust `Iterator::max_by_key`: among equally maximal elements the **last**
one in iteration order is returned. -/
def max_by_key_last {α : Type} (f : α → ℤ) (l : List α) : Option α :=
  l.foldl
    (fun acc x =>
      match acc with
      | none => some x
      | some a => if f a ≤ f x then some x else some a)
    none

/-- The per-`TransformId` channel selection of `derive_transform_graph`:
group the selected transforms by `TransformId` and keep, per group, the entry
`max_by_key` picks by channel priority. -/
def prioritized_selected_transforms (rf : ReferenceFrames)
    (selected : List ((ChannelId × TransformId) × List RFTransform)) :
    List (TransformId × (ChannelId × List RFTransform)) :=
  ((selected.map (fun p => p.1.2)).dedup).filterMap (fun tid =>
    (max_by_key_last (fun p => rf.channel_priority_of p.1.1)
        (selected.filter (fun p => p.1.2 = tid))).map
      (fun best => (tid, (best.1.1, best.2))))

/-- The evaluation loop of `derive_transform_graph` over the prioritized
groups: interpolate each group's samples at the selected timestamp. -/
def evaluate_prioritized (slerp : Quat → Quat → ℚ → Quat) (rf : ReferenceFrames)
    (timestamp : Option ℤ) :
    List (TransformId × (ChannelId × List RFTransform)) → PRes (List (TransformId × Isometry))
  | [] => .ok []
  | (tid, (_, transforms)) :: rest =>
    match inter_and_extrapolate_transforms slerp transforms timestamp
        (rf.get_interpolation_method tid) (rf.get_extrapolation_method tid) with
    | .ok iso =>
      match evaluate_prioritized slerp rf timestamp rest with
      | .ok l => .ok ((tid, iso) :: l)
      | .err e => .err e
      | .diverge => .diverge
    | .err e => .err e
    | .diverge => .diverge

/-- Rust `IsometryGraph` (isometry_graph.rs), modelled by its observable
content: the per-`TransformId` isometries. -/
structure IsometryGraph where
  isometries : List (TransformId × Isometry)
deriving DecidableEq

/-- Rust `IsometryGraph::new`: empty input is `MissingTransforms`. -/
def IsometryGraph.new (isometry_transforms : List (TransformId × Isometry)) :
    Except Error IsometryGraph :=
  if isometry_transforms.isEmpty then .error .MissingTransforms
  else .ok ⟨isometry_transforms⟩

/-- Rust `ReferenceFrames::derive_transform_graph`: reject an empty channel
selection, restrict to the selected channels, resolve channel priority per
`TransformId`, evaluate each selected group at the timestamp. -/
def ReferenceFrames.derive_transform_graph (slerp : Quat → Quat → ℚ → Quat)
    (rf : ReferenceFrames) (selected_channel_ids : Option (List ChannelId))
    (selected_timestamp : Option ℤ) : PRes IsometryGraph :=
  match selected_channel_ids with
  | some cs =>
    if cs.isEmpty then .err .NoChannels
    else
      match evaluate_prioritized slerp rf selected_timestamp
          (prioritized_selected_transforms rf (filter_by_channel rf.transforms cs)) with
      | .ok isos => exceptToPRes (IsometryGraph.new isos)
      | .err e => .err e
      | .diverge => .diverge
  | none =>
    match evaluate_prioritized slerp rf selected_timestamp
        (prioritized_selected_transforms rf rf.transforms) with
    | .ok isos => exceptToPRes (IsometryGraph.new isos)
    | .err e => .err e
    | .diverge => .diverge

/-! ### Merge (ops/merge.rs) -/

/-- The collision scan of `merge`: a `(ChannelId, TransformId)` key occurring
in more than one input. -/
def merge_collision (rfs : List ReferenceFrames) : Option (ChannelId × TransformId) :=
  ((rfs.flatMap (fun r => keysOf r.transforms)).dedup).find? (fun key =>
    decide (1 < rfs.countP (fun r => decide (key ∈ keysOf r.transforms))))

/-- `all_transforms.entry(k).or_default().append(v)`. -/
def append_transforms (m : List ((ChannelId × TransformId) × List RFTransform))
    (k : ChannelId × TransformId) (v : List RFTransform) :
    List ((ChannelId × TransformId) × List RFTransform) :=
  match lookupKV m k with
  | some old => insertKV m k (old ++ v)
  | none => m ++ [(k, v)]

/-- The transform union of `merge` across the inputs. -/
def merged_transforms (rfs : List ReferenceFrames) :
    List ((ChannelId × TransformId) × List RFTransform) :=
  rfs.foldl (fun m r => r.transforms.foldl (fun m p => append_transforms m p.1 p.2) m) []

/-- The info-map unions of `merge` (later inputs overwrite). -/
def merged_infos {κ ν : Type} [DecidableEq κ] (maps : List (List (κ × ν))) : List (κ × ν) :=
  maps.foldl (fun m l => l.foldl (fun m p => insertKV m p.1 p.2) m) []

/-- Rust `merge` (ops/merge.rs): fail on any `(ChannelId, TransformId)` key
defined by more than one input; otherwise union everything, sort each sample
vector and validate via `ReferenceFrames::new`. -/
def merge (rfs : List ReferenceFrames) : PRes ReferenceFrames :=
  match merge_collision rfs with
  | some key => .err (.ChannelTransformCollisions key.1 key.2)
  | none =>
    let all_transforms :=
      (merged_transforms rfs).map (fun p => (p.1, rf_sort_by_timestamp p.2))
    ReferenceFrames.new all_transforms
      (merged_infos (rfs.map (·.frame_info)))
      (merged_infos (rfs.map (·.channel_info)))
      (merged_infos (rfs.map (·.transform_info)))

/-! ### Octree (octree/index.rs, octree/graph.rs, octree/bounds.rs,
octree/octree.rs, coords/bounding_box.rs) -/

/-- Rust `OctantIndex` (octree/index.rs). -/
structure OctantIndex where
  level : ℕ
  x : ℕ
  y : ℕ
  z : ℕ
deriving DecidableEq

/-- `OctantIndex::origin()`. -/
def OctantIndex.origin : OctantIndex :=
  ⟨0, 0, 0, 0⟩

def OctantIndex.get_child_base_octant (i : OctantIndex) : OctantIndex :=
  ⟨i.level + 1, i.x * 2, i.y * 2, i.z * 2⟩

/-- `OctantIndex::get_parent`: `None` at level 0, else the halved index. -/
def OctantIndex.get_parent (i : OctantIndex) : Option OctantIndex :=
  if i.level = 0 then none else some ⟨i.level - 1, i.x / 2, i.y / 2, i.z / 2⟩

/-- `OctantIndex::get_children`, in source order. -/
def OctantIndex.get_children (i : OctantIndex) : List OctantIndex :=
  let b := i.get_child_base_octant
  [b,
   ⟨b.level, b.x + 1, b.y, b.z⟩,
   ⟨b.level, b.x, b.y + 1, b.z⟩,
   ⟨b.level, b.x + 1, b.y + 1, b.z⟩,
   ⟨b.level, b.x, b.y, b.z + 1⟩,
   ⟨b.level, b.x + 1, b.y, b.z + 1⟩,
   ⟨b.level, b.x, b.y + 1, b.z + 1⟩,
   ⟨b.level, b.x + 1, b.y + 1, b.z + 1⟩]

/-- The `while let Some(parent)` loop of
`OctreeOccupancyGraph::add_cell_occupancy` (octree/graph.rs): nodes are
inserted only while the current index has a parent, so a level-0 index
inserts nothing.  The fuel equals the starting level, which is exactly the
number of loop iterations. -/
def occ_insert_chain : ℕ → OctantIndex → Finset OctantIndex → Finset OctantIndex
  | 0, _, s => s
  | fuel + 1, i, s =>
    match i.get_parent with
    | none => s
    | some p => occ_insert_chain fuel p (insert p (insert i s))

/-- Rust `OctreeOccupancyGraph`, modelled by the key set of its
`octant_index_to_node_index_map` — the set `is_cell_occupied` consults. -/
structure OctreeOccupancyGraph where
  occupied : Finset OctantIndex
deriving DecidableEq

def OctreeOccupancyGraph.new : OctreeOccupancyGraph :=
  ⟨∅⟩

/-- Rust `OctreeOccupancyGraph::is_cell_occupied`. -/
def OctreeOccupancyGraph.is_cell_occupied (g : OctreeOccupancyGraph) (index : OctantIndex) : Bool :=
  decide (index ∈ g.occupied)

/-- Rust `OctreeOccupancyGraph::add_cell_occupancy`. -/
def OctreeOccupancyGraph.add_cell_occupancy (g : OctreeOccupancyGraph) (octant_index : OctantIndex) :
    OctreeOccupancyGraph :=
  ⟨occ_insert_chain octant_index.level octant_index g.occupied⟩

/-- Rust `AxisAlignedBoundingBox` (coords/bounding_box.rs). -/
structure AxisAlignedBoundingBox where
  lower_bound : Vec3
  upper_bound : Vec3
deriving DecidableEq

/-- `AxisAlignedBoundingBox::new`: reject `lower > upper` on any axis. -/
def AxisAlignedBoundingBox.new (lower_bound upper_bound : Vec3) :
    Except Error AxisAlignedBoundingBox :=
  if lower_bound.x > upper_bound.x ∨ lower_bound.y > upper_bound.y ∨
      lower_bound.z > upper_bound.z then
    .error .LowerBoundExceedsUpperBound
  else .ok ⟨lower_bound, upper_bound⟩

def AxisAlignedBoundingBox.diagonal (b : AxisAlignedBoundingBox) : Vec3 :=
  b.upper_bound.sub b.lower_bound

def AxisAlignedBoundingBox.get_center (b : AxisAlignedBoundingBox) : Vec3 :=
  b.lower_bound.add (Vec3.smul (1 / 2) (b.diagonal))

/-- Rust `AxisAlignedBoundingCube` with its internally derived upper bound. -/
structure AxisAlignedBoundingCube where
  lower_bound : Vec3
  edge_length : ℚ
  upper_bound : Vec3
deriving DecidableEq

/-- `AxisAlignedBoundingCube::new_unchecked`. -/
def AxisAlignedBoundingCube.new_unchecked (lower_bound : Vec3) (edge_length : ℚ) :
    AxisAlignedBoundingCube :=
  ⟨lower_bound, edge_length, lower_bound.add ⟨edge_length, edge_length, edge_length⟩⟩

/-- `next_strict_power_of_two_f64`: `1` for non-positive input, else
`2^(⌊log₂ x⌋ + 1)` (exact-rational idealization of the f64 computation). -/
def next_strict_power_of_two (x : ℚ) : ℚ :=
  if x ≤ 0 then 1 else (2 : ℚ) ^ (Int.log 2 x + 1)

/-- `AxisAlignedBoundingCube::from_power_of_two_enclosing_box`. -/
def AxisAlignedBoundingCube.from_power_of_two_enclosing_box
    (bounding_box : AxisAlignedBoundingBox) : AxisAlignedBoundingCube :=
  let center := bounding_box.get_center
  let diagonal := bounding_box.diagonal
  let max_extent := max (max diagonal.x diagonal.y) diagonal.z
  let edge_length := next_strict_power_of_two max_extent
  let half_edge_length := edge_length / 2
  AxisAlignedBoundingCube.new_unchecked
    (center.sub ⟨half_edge_length, half_edge_length, half_edge_length⟩) edge_length

/-- `AxisAlignedBoundingCube::contains_point`: half-open `[min, max)` bounds. -/
def AxisAlignedBoundingCube.contains_point (c : AxisAlignedBoundingCube) (point : Vec3) : Bool :=
  decide (c.lower_bound.x ≤ point.x) && decide (point.x < c.upper_bound.x) &&
  decide (c.lower_bound.y ≤ point.y) && decide (point.y < c.upper_bound.y) &&
  decide (c.lower_bound.z ≤ point.z) && decide (point.z < c.upper_bound.z)

/-- Rust `OctreeBounds` (octree/bounds.rs). -/
structure OctreeBounds where
  bounding_box : AxisAlignedBoundingBox
  enclosing_cube : AxisAlignedBoundingCube
deriving DecidableEq

/-- `OctreeBounds::new`. -/
def OctreeBounds.new (bounding_box : AxisAlignedBoundingBox) : OctreeBounds :=
  ⟨bounding_box, AxisAlignedBoundingCube.from_power_of_two_enclosing_box bounding_box⟩

/-- `OctreeBounds::get_octant_bounding_cube`. -/
def OctreeBounds.get_octant_bounding_cube (b : OctreeBounds) (index : OctantIndex) :
    AxisAlignedBoundingCube :=
  let octant_edge_length := b.enclosing_cube.edge_length / ((2 : ℚ) ^ index.level)
  let lower_bound := b.enclosing_cube.lower_bound
  AxisAlignedBoundingCube.new_unchecked
    ⟨lower_bound.x + octant_edge_length * (index.x : ℚ),
     lower_bound.y + octant_edge_length * (index.y : ℚ),
     lower_bound.z + octant_edge_length * (index.z : ℚ)⟩
    octant_edge_length

/-- `reduce(f64::min)` over a projection of the items. -/
def fold_min (l : List ℚ) : Option ℚ :=
  match l with
  | [] => none
  | a :: rest => some (rest.foldl min a)

/-- `reduce(f64::max)` over a projection of the items. -/
def fold_max (l : List ℚ) : Option ℚ :=
  match l with
  | [] => none
  | a :: rest => some (rest.foldl max a)

/-- Rust `derive_octree_bounds` (octree/octree.rs), parametric over the
`HasAabb` accessors of the item type. -/
def derive_octree_bounds {α : Type} (lo hi : α → Vec3) (items : List α) :
    Except Error OctreeBounds :=
  match fold_min (items.map (fun i => (lo i).x)), fold_min (items.map (fun i => (lo i).y)),
      fold_min (items.map (fun i => (lo i).z)), fold_max (items.map (fun i => (hi i).x)),
      fold_max (items.map (fun i => (hi i).y)), fold_max (items.map (fun i => (hi i).z)) with
  | some min_x, some min_y, some min_z, some max_x, some max_y, some max_z =>
    match AxisAlignedBoundingBox.new ⟨min_x, min_y, min_z⟩ ⟨max_x, max_y, max_z⟩ with
    | .error e => .error e
    | .ok bounding_box => .ok (OctreeBounds.new bounding_box)
  | none, _, _, _, _, _ => .error .NoMinValue
  | _, none, _, _, _, _ => .error .NoMinValue
  | _, _, none, _, _, _ => .error .NoMinValue
  | _, _, _, none, _, _ => .error .NoMaxValue
  | _, _, _, _, none, _ => .error .NoMaxValue
  | _, _, _, _, _, none => .error .NoMaxValue

/-- Rust `IntermediateResult` (octree/octree.rs). -/
structure IntermediateResult (α : Type) where
  octant_index : OctantIndex
  assigned_items : Option (List α)
  remaining_items : Option (List α)

/-- The per-child body of `sub_divide`: filter the pending items whose center
lies in the child cube; if more than the cap fit, assign exactly the first
`max_items_per_octant` and defer the rest (`split_off`). -/
def compute_child_result {α : Type} (center : α → Vec3) (octree_bounds : OctreeBounds)
    (max_items_per_octant : ℕ) (child : OctantIndex) (pending : List α) :
    IntermediateResult α :=
  let cube := octree_bounds.get_octant_bounding_cube child
  let items_within_cube := pending.filter (fun x => cube.contains_point (center x))
  let remaining_items :=
    if max_items_per_octant < items_within_cube.length then
      some (items_within_cube.drop max_items_per_octant)
    else none
  let kept :=
    if max_items_per_octant < items_within_cube.length then
      items_within_cube.take max_items_per_octant
    else items_within_cube
  let assigned_items := if kept.isEmpty then none else some kept
  ⟨child, assigned_items, remaining_items⟩

/-- Rust `generate_child_pairs`: the eight children, or the level-0 cell for
the initial `None` parent. -/
def generate_child_pairs (parent : Option OctantIndex) : List OctantIndex :=
  match parent with
  | some p => p.get_children
  | none => [OctantIndex.origin]

/-- Rust `sub_divide` (octree/octree.rs): one parallel round over the pending
buckets. -/
def sub_divide {α : Type} (center : α → Vec3)
    (pending_items : List (Option OctantIndex × List α)) (octree_bounds : OctreeBounds)
    (max_items_per_octant : ℕ) : List (IntermediateResult α) :=
  pending_items.flatMap (fun p =>
    (generate_child_pairs p.1).map (fun child =>
      compute_child_result center octree_bounds max_items_per_octant child p.2))

/-- The `while !pending_items.is_empty()` loop of `compute_octree`, with an
explicit fuel (`none` when the fuel is exhausted before the loop ends). -/
def octree_rounds {α : Type} (center : α → Vec3) (octree_bounds : OctreeBounds)
    (max_items_per_octant : ℕ) :
    ℕ → List (Option OctantIndex × List α) → Finset OctantIndex →
    List (OctantIndex × List α) → Option (Finset OctantIndex × List (OctantIndex × List α))
  | _, [], occupied, final => some (occupied, final)
  | 0, _ :: _, _, _ => none
  | fuel + 1, p :: pending, occupied, final =>
    let results := sub_divide center (p :: pending) octree_bounds max_items_per_octant
    let occupied2 :=
      results.foldl (fun s r => occ_insert_chain r.octant_index.level r.octant_index s) occupied
    let final2 :=
      final ++ results.filterMap (fun r => r.assigned_items.map (fun l => (r.octant_index, l)))
    let pending2 :=
      results.filterMap (fun r => r.remaining_items.map (fun l => (some r.octant_index, l)))
    octree_rounds center octree_bounds max_items_per_octant fuel pending2 occupied2 final2

/-- Rust `Octree<T>` (octree/octree.rs). -/
structure Octree (α : Type) where
  bounds : OctreeBounds
  occupancy_graph : OctreeOccupancyGraph
  cells : List (OctantIndex × List α)
deriving DecidableEq

/-- Rust `compute_octree` / `Octree::new`, parametric over the `HasAabb`
accessors; the optional shuffle is a permutation of `items` applied by the
caller, and the outer `Option` is the fuel of the build loop. -/
def compute_octree {α : Type} (center lo hi : α → Vec3) (fuel : ℕ) (items : List α)
    (max_items_per_octant : ℕ) : Option (Except Error (Octree α)) :=
  match derive_octree_bounds lo hi items with
  | .error e => some (.error e)
  | .ok octree_bounds =>
    (octree_rounds center octree_bounds max_items_per_octant fuel [(none, items)] ∅ []).map
      (fun r => .ok ⟨octree_bounds, ⟨r.1⟩, r.2⟩)

/-- `Octree::contains_content_cells`. -/
def Octree.contains_content_cells {α : Type} (o : Octree α) (index : OctantIndex) : Bool :=
  (lookupKV o.cells index).isSome

/-! ## Helper lemmas -/

theorem sort_by_timestamp_sorted (l : List TimedTransform) :
    (sort_by_timestamp l).Sorted (fun a b => a.timestamp ≤ b.timestamp) := by
  haveI : IsTotal TimedTransform (fun a b => a.timestamp ≤ b.timestamp) :=
    ⟨fun a b => le_total _ _⟩
  haveI : IsTrans TimedTransform (fun a b => a.timestamp ≤ b.timestamp) :=
    ⟨fun _ _ _ hab hbc => le_trans hab hbc⟩
  exact List.sorted_insertionSort _ l

theorem sort_by_timestamp_perm (l : List TimedTransform) : (sort_by_timestamp l).Perm l :=
  List.perm_insertionSort _ l

theorem first_duplicate_timestamp_eq_none {l : List TimedTransform} :
    first_duplicate_timestamp l = none ↔
      l.Chain' (fun a b => a.timestamp ≠ b.timestamp) := by
  induction l with
  | nil => simp [first_duplicate_timestamp]
  | cons a l ih =>
    cases l with
    | nil => simp [first_duplicate_timestamp]
    | cons b m =>
      by_cases h : a.timestamp = b.timestamp
      · simp [first_duplicate_timestamp, h]
      · simpa [first_duplicate_timestamp, h, List.chain'_cons] using ih

theorem chain'_lt_of_sorted_of_ne :
    ∀ {l : List TimedTransform},
      l.Sorted (fun a b => a.timestamp ≤ b.timestamp) →
      l.Chain' (fun a b => a.timestamp ≠ b.timestamp) →
      l.Chain' (fun a b => a.timestamp < b.timestamp)
  | [], _, _ => List.chain'_nil
  | [_], _, _ => List.chain'_singleton _
  | a :: b :: m, hs, hne => by
    rw [List.chain'_cons] at hne ⊢
    refine ⟨lt_of_le_of_ne ?_ hne.1, ?_⟩
    · exact (List.pairwise_cons.mp hs).1 b (List.mem_cons_self b m)
    · exact chain'_lt_of_sorted_of_ne (List.pairwise_cons.mp hs).2 hne.2

theorem chain'_ne_iff_nodup_map {l : List TimedTransform}
    (hs : l.Sorted (fun a b => a.timestamp ≤ b.timestamp)) :
    l.Chain' (fun a b => a.timestamp ≠ b.timestamp) ↔
      (l.map (·.timestamp)).Nodup := by
  constructor
  · intro h
    have hlt := chain'_lt_of_sorted_of_ne hs h
    haveI : IsTrans TimedTransform (fun a b => a.timestamp < b.timestamp) :=
      ⟨fun _ _ _ hab hbc => lt_trans hab hbc⟩
    have hp : l.Pairwise (fun a b => a.timestamp < b.timestamp) :=
      List.chain'_iff_pairwise.mp hlt
    have : (l.map (·.timestamp)).Pairwise (· < ·) := List.pairwise_map.mpr hp
    exact List.Pairwise.imp (fun h => ne_of_lt h) this
  · intro h
    have hp : l.Pairwise (fun a b => a.timestamp ≠ b.timestamp) :=
      List.pairwise_map.mp h
    exact hp.chain'

/-- `option_traverse` succeeds exactly on pointwise successes. -/
theorem option_traverse_eq_some {α β : Type} (f : α → Option β) :
    ∀ (l : List α) (l' : List β),
      option_traverse f l = some l' ↔ List.Forall₂ (fun a b => f a = some b) l l'
  | [], l' => by
    constructor
    · intro h
      cases h
      exact List.Forall₂.nil
    · intro h
      cases h
      rfl
  | a :: l, l' => by
    constructor
    · intro h
      cases hfa : f a with
      | none => simp [option_traverse, hfa] at h
      | some b =>
        cases hml : option_traverse f l with
        | none => simp [option_traverse, hfa, hml] at h
        | some bs =>
          have hl' : l' = b :: bs := by
            simp only [option_traverse, hfa, hml, Option.map_some] at h
            exact (Option.some.injEq _ _ ▸ h).symm
          subst hl'
          exact List.Forall₂.cons hfa ((option_traverse_eq_some f l bs).mp hml)
    · intro h
      cases h with
      | cons hab hrest =>
        rename_i b bs
        simp [option_traverse, hab, (option_traverse_eq_some f l bs).mpr hrest]

theorem lookup_insertKV {κ ν : Type} [DecidableEq κ] :
    ∀ (m : List (κ × ν)) (k k' : κ) (v : ν),
      lookupKV (insertKV m k v) k' = if k' = k then some v else lookupKV m k'
  | [], k, k', v => by
    by_cases hk' : k' = k
    · simp [insertKV, lookupKV, List.find?, hk']
    · have hks : ¬ k = k' := fun h => hk' h.symm
      simp [insertKV, lookupKV, List.find?, hk', hks]
  | p :: m, k, k', v => by
    by_cases hp : p.1 = k
    · by_cases hk' : k' = k
      · simp [insertKV, lookupKV, List.find?, hp, hk']
      · have h1 : ¬ k = k' := fun h => hk' h.symm
        have h2 : ¬ p.1 = k' := fun h => hk' (h ▸ hp.symm ▸ rfl)
        simp [insertKV, lookupKV, List.find?, hp, hk', h1, h2]
    · by_cases hp' : p.1 = k'
      · have hk' : ¬ k' = k := fun h => hp (h ▸ hp')
        simp [insertKV, lookupKV, List.find?, hp, hp', hk']
      · have ih := lookup_insertKV m k k' v
        by_cases hk' : k' = k <;>
          simp_all [insertKV, lookupKV, List.find?, hp, hp', hk']

theorem lookup_append_single {κ ν : Type} [DecidableEq κ] (m : List (κ × ν)) (k k' : κ) (v : ν) :
    lookupKV (m ++ [(k, v)]) k' =
      match lookupKV m k' with
      | some w => some w
      | none => if k' = k then some v else none := by
  induction m with
  | nil =>
    by_cases hk' : k' = k
    · simp [lookupKV, List.find?, hk']
    · have hks : ¬ k = k' := fun h => hk' h.symm
      simp [lookupKV, List.find?, hk', hks]
  | cons p m ih =>
    by_cases hp : p.1 = k'
    · simp [lookupKV, List.find?, hp]
    · simpa [lookupKV, List.find?, hp] using ih

theorem lookup_isSome_of_mem_keys {κ ν : Type} [DecidableEq κ] {m : List (κ × ν)} {k : κ}
    (h : k ∈ keysOf m) : ∃ v, lookupKV m k = some v := by
  induction m with
  | nil => simp [keysOf] at h
  | cons p m ih =>
    by_cases hp : p.1 = k
    · exact ⟨p.2, by simp [lookupKV, List.find?, hp]⟩
    · have : k ∈ keysOf m := by
        simp only [keysOf, List.map_cons, List.mem_cons] at h
        exact h.resolve_left (fun hh => hp hh.symm)
      obtain ⟨v, hv⟩ := ih this
      exact ⟨v, by simpa [lookupKV, List.find?, hp] using hv⟩

theorem lookup_eq_none_of_not_mem_keys {κ ν : Type} [DecidableEq κ] {m : List (κ × ν)} {k : κ}
    (h : k ∉ keysOf m) : lookupKV m k = none := by
  induction m with
  | nil => simp [lookupKV, List.find?]
  | cons p m ih =>
    have hp : ¬ p.1 = k := by
      intro hh
      exact h (by simp [keysOf, hh])
    have : k ∉ keysOf m := fun hh => h (by simp [keysOf] at hh ⊢; exact Or.inr hh)
    simpa [lookupKV, List.find?, hp] using ih this

/-! ## Simple-path machinery for the frame graph -/

theorem mem_successors {es : List TransformId} {u v : FrameId} :
    v ∈ successors es u ↔ (⟨u, v⟩ : TransformId) ∈ es := by
  simp only [successors, List.mem_map, List.mem_filter, decide_eq_true_eq]
  constructor
  · rintro ⟨e, ⟨he, hp⟩, rfl⟩
    cases e
    cases hp
    exact he
  · intro h
    exact ⟨⟨u, v⟩, ⟨h, rfl⟩, rfl⟩

theorem simple_paths_from_succ (es : List TransformId) (fuel : ℕ) (u target : FrameId)
    (visited : List FrameId) :
    simple_paths_from es (fuel + 1) u target visited =
      if u = target then [[u]]
      else
        ((successors es u).filter (fun v => v ∉ u :: visited)).flatMap
          (fun v => (simple_paths_from es fuel v target (u :: visited)).map (u :: ·)) := rfl

theorem mem_simple_paths_from {es : List TransformId} :
    ∀ (fuel : ℕ) (u target : FrameId) (visited : List FrameId) (p : List FrameId),
      u ∉ visited →
      (p ∈ simple_paths_from es fuel u target visited ↔
        (p.length ≤ fuel ∧ p.head? = some u ∧ p.getLast? = some target ∧ p.Nodup ∧
         (∀ x ∈ p, x ∉ visited) ∧ p.Chain' (edge_mem es)))
  | 0, u, target, visited, p, hu => by
    constructor
    · intro h
      simp [simple_paths_from] at h
    · rintro ⟨hlen, hhead, -⟩
      cases p with
      | nil => cases hhead
      | cons a q => simp at hlen
  | fuel + 1, u, target, visited, p, hu => by
    rw [simple_paths_from_succ]
    by_cases hut : u = target
    · rw [if_pos hut, List.mem_singleton]
      constructor
      · rintro rfl
        refine ⟨by simp, rfl, by rw [hut]; rfl, by simp, ?_, by simp⟩
        intro x hx
        rw [List.mem_singleton] at hx
        subst hx
        exact hu
      · rintro ⟨hlen, hhead, hlast, hnodup, hvis, hchain⟩
        cases p with
        | nil => cases hhead
        | cons a q =>
          obtain rfl : u = a := by simpa using hhead.symm
          cases q with
          | nil => rfl
          | cons b r =>
            exfalso
            have hlast' : (b :: r).getLast? = some u := by
              rw [← hut] at hlast
              simpa [List.getLast?_cons_cons] using hlast
            have hmem : u ∈ b :: r :=
              List.mem_of_mem_getLast? (by rw [hlast']; exact rfl)
            exact (List.nodup_cons.mp hnodup).1 hmem
    · rw [if_neg hut, List.mem_flatMap]
      constructor
      · rintro ⟨v, hv, hp⟩
        rw [List.mem_filter] at hv
        obtain ⟨hvsucc, hvnot⟩ := hv
        have hvnot' : v ∉ u :: visited := by simpa using hvnot
        rw [List.mem_map] at hp
        obtain ⟨p', hp', rfl⟩ := hp
        obtain ⟨hlen, hhead, hlast, hnodup, hvis, hchain⟩ :=
          (mem_simple_paths_from fuel v target (u :: visited) p' hvnot').mp hp'
        have hp'ne : p' ≠ [] := by
          intro h
          subst h
          cases hhead
        refine ⟨by simpa using Nat.succ_le_succ hlen, rfl, ?_, ?_, ?_, ?_⟩
        · cases p' with
          | nil => exact absurd rfl hp'ne
          | cons b r => simpa [List.getLast?_cons_cons] using hlast
        · rw [List.nodup_cons]
          exact ⟨fun hmem => (hvis u hmem) (List.mem_cons_self u visited), hnodup⟩
        · intro x hx
          rcases List.mem_cons.mp hx with rfl | hx'
          · exact hu
          · exact fun hxv => (hvis x hx') (List.mem_cons_of_mem _ hxv)
        · rw [List.chain'_cons']
          refine ⟨?_, hchain⟩
          intro y hy
          rw [hhead] at hy
          cases hy
          exact mem_successors.mp hvsucc
      · rintro ⟨hlen, hhead, hlast, hnodup, hvis, hchain⟩
        cases p with
        | nil => cases hhead
        | cons a p' =>
          obtain rfl : u = a := by simpa using hhead.symm
          cases p' with
          | nil =>
            exact absurd (by simpa using hlast) hut
          | cons v rest =>
            have hvu : v ≠ u := by
              intro h
              subst h
              exact (List.nodup_cons.mp hnodup).1 (List.mem_cons_self v rest)
            have hvvis : v ∉ visited := hvis v (by simp)
            have hv' : v ∉ u :: visited := by
              simp only [List.mem_cons, not_or]
              exact ⟨hvu, hvvis⟩
            refine ⟨v, ?_, ?_⟩
            · rw [List.mem_filter]
              refine ⟨mem_successors.mpr (List.chain'_cons.mp hchain).1, ?_⟩
              simpa using hv'
            · rw [List.mem_map]
              refine ⟨v :: rest, ?_, rfl⟩
              rw [mem_simple_paths_from fuel v target (u :: visited) (v :: rest) hv']
              refine ⟨by simpa using Nat.le_of_succ_le_succ hlen, rfl, ?_, ?_, ?_, ?_⟩
              · simpa [List.getLast?_cons_cons] using hlast
              · exact (List.nodup_cons.mp hnodup).2
              · intro x hx
                simp only [List.mem_cons, not_or]
                exact ⟨fun hxu => (List.nodup_cons.mp hnodup).1 (hxu ▸ hx),
                  hvis x (List.mem_cons_of_mem _ hx)⟩
              · exact (List.chain'_cons.mp hchain).2

theorem head_of_mem_simple_paths_from {es : List TransformId} :
    ∀ {fuel : ℕ} {u target : FrameId} {visited : List FrameId} {p : List FrameId},
      p ∈ simple_paths_from es fuel u target visited → p.head? = some u := by
  intro fuel u target visited p hp
  cases fuel with
  | zero => simp [simple_paths_from] at hp
  | succ fuel =>
    rw [simple_paths_from_succ] at hp
    by_cases hut : u = target
    · rw [if_pos hut, List.mem_singleton] at hp
      subst hp
      rfl
    · rw [if_neg hut, List.mem_flatMap] at hp
      obtain ⟨v, -, hp⟩ := hp
      rw [List.mem_map] at hp
      obtain ⟨p', -, rfl⟩ := hp
      rfl

theorem simple_paths_from_nodup {es : List TransformId} (hes : es.Nodup) :
    ∀ (fuel : ℕ) (u target : FrameId) (visited : List FrameId),
      (simple_paths_from es fuel u target visited).Nodup
  | 0, _, _, _ => List.nodup_nil
  | fuel + 1, u, target, visited => by
    rw [simple_paths_from_succ]
    by_cases hut : u = target
    · simp [hut]
    · rw [if_neg hut, List.nodup_flatMap]
      have hsucc : (successors es u).Nodup := by
        apply List.Nodup.map_on
        · intro x hx y hy hxy
          rw [List.mem_filter] at hx hy
          have hx' : x.parent_frame_id = u := by simpa using hx.2
          have hy' : y.parent_frame_id = u := by simpa using hy.2
          cases x
          cases y
          simp_all
        · exact hes.filter _
      have hfilter : ((successors es u).filter (fun v => v ∉ u :: visited)).Nodup :=
        hsucc.filter _
      constructor
      · intro v hv
        apply List.Nodup.map
        · intro p q hpq
          simpa using hpq
        · exact simple_paths_from_nodup hes fuel v target (u :: visited)
      · refine List.Pairwise.imp ?_ hfilter
        intro v w hvw
        intro p hpv hpw
        rw [List.mem_map] at hpv hpw
        obtain ⟨pv, hpv', rfl⟩ := hpv
        obtain ⟨pw, hpw', heq⟩ := hpw
        have hpweq : pw = pv := by
          injection heq
        subst hpweq
        have h1 : pw.head? = some v := head_of_mem_simple_paths_from hpv'
        have h2 : pw.head? = some w := head_of_mem_simple_paths_from hpw'
        rw [h1] at h2
        exact hvw (Option.some.inj h2)

theorem mem_get_frame_ids {g : FrameGraph} {x : FrameId} :
    x ∈ g.get_frame_ids ↔
      ∃ e ∈ g.edge_list, x = e.parent_frame_id ∨ x = e.child_frame_id := by
  simp [FrameGraph.get_frame_ids, List.mem_dedup, List.mem_flatMap]

theorem chain_nodes_mem_frame_ids {g : FrameGraph} :
    ∀ {p : List FrameId}, p.Chain' (edge_mem g.edge_list) → 2 ≤ p.length →
      ∀ x ∈ p, x ∈ g.get_frame_ids := by
  intro p
  induction p with
  | nil =>
    intro _ h
    simp at h
  | cons a q ih =>
    intro hchain hlen x hx
    cases q with
    | nil => simp at hlen
    | cons b r =>
      have hedge : edge_mem g.edge_list a b := (List.chain'_cons.mp hchain).1
      rcases List.mem_cons.mp hx with rfl | hx'
      · exact mem_get_frame_ids.mpr ⟨⟨x, b⟩, hedge, Or.inl rfl⟩
      · cases r with
        | nil =>
          rw [List.mem_singleton] at hx'
          subst hx'
          exact mem_get_frame_ids.mpr ⟨⟨a, x⟩, hedge, Or.inr rfl⟩
        | cons c r' =>
          exact ih (List.chain'_cons.mp hchain).2 (by simp) x hx'

theorem isSimplePath_dedup {es : List TransformId} {a b : FrameId} {p : List FrameId} :
    IsSimplePath es.dedup a b p ↔ IsSimplePath es a b p := by
  unfold IsSimplePath
  constructor
  · rintro ⟨h1, h2, h3, h4⟩
    exact ⟨h1, h2, h3, h4.imp (fun _ _ h => List.mem_dedup.mp h)⟩
  · rintro ⟨h1, h2, h3, h4⟩
    exact ⟨h1, h2, h3, h4.imp (fun _ _ h => List.mem_dedup.mpr h)⟩

theorem mem_all_simple_paths {g : FrameGraph} {a b : FrameId} {p : List FrameId}
    (hab : a ≠ b) :
    p ∈ g.all_simple_paths a b ↔ IsSimplePath g.edge_list a b p := by
  unfold FrameGraph.all_simple_paths
  rw [mem_simple_paths_from _ a b [] p (by simp)]
  unfold IsSimplePath
  constructor
  · rintro ⟨-, h2, h3, h4, -, h6⟩
    exact ⟨h2, h3, h4, h6⟩
  · rintro ⟨h2, h3, h4, h6⟩
    refine ⟨?_, h2, h3, h4, by simp, h6⟩
    have hlen2 : 2 ≤ p.length := by
      cases p with
      | nil => cases h2
      | cons x q =>
        cases q with
        | nil =>
          exfalso
          apply hab
          have hx : x = a := by simpa using h2
          have hb : x = b := by simpa using h3
          rw [← hx, hb]
        | cons y r => simp
    have hsub : p ⊆ g.get_frame_ids :=
      fun x hx => chain_nodes_mem_frame_ids h6 hlen2 x hx
    have hle : p.length ≤ g.get_frame_ids.length :=
      (List.Nodup.subperm h4 hsub).length_le
    omega

theorem all_simple_paths_nodup {es : List TransformId} (a b : FrameId) :
    ((FrameGraph.new es).all_simple_paths a b).Nodup :=
  simple_paths_from_nodup (List.nodup_dedup es) _ a b []

theorem get_frame_id_path_eq_match (g : FrameGraph) (id : TransformId)
    (hp : id.parent_frame_id ∈ g.get_frame_ids)
    (hc : id.child_frame_id ∈ g.get_frame_ids) :
    g.get_frame_id_path id =
      match g.all_simple_paths id.parent_frame_id id.child_frame_id with
      | [] => .error (.NoTransformPath id)
      | [p] => .ok p
      | _ => .error (.MultipleTransformPaths id) := by
  unfold FrameGraph.get_frame_id_path
  rw [if_neg (not_not_intro hp), if_neg (not_not_intro hc)]

/-! ## Claim C4 -/

/-- **C4** (confirmed): `FrameGraph::get_frame_id_path` returns
`InvalidFrameId` when an endpoint frame is absent (parent checked first),
`NoTransformPath` exactly when no simple directed path exists,
`MultipleTransformPaths` exactly when two distinct simple directed paths
exist, and otherwise the unique simple path's frame sequence; in particular,
for frames A,B,C,D with edges A→B, A→C, B→D, C→D the query (A,D) fails with
`MultipleTransformPaths`. -/
theorem c4_get_frame_id_path_spec :
    (∀ (es : List TransformId) (id : TransformId),
      id.parent_frame_id ≠ id.child_frame_id →
      ((id.parent_frame_id ∉ (FrameGraph.new es).get_frame_ids →
        (FrameGraph.new es).get_frame_id_path id =
          .error (.InvalidFrameId id.parent_frame_id)) ∧
      (id.parent_frame_id ∈ (FrameGraph.new es).get_frame_ids →
        id.child_frame_id ∉ (FrameGraph.new es).get_frame_ids →
        (FrameGraph.new es).get_frame_id_path id =
          .error (.InvalidFrameId id.child_frame_id)) ∧
      (id.parent_frame_id ∈ (FrameGraph.new es).get_frame_ids →
        id.child_frame_id ∈ (FrameGraph.new es).get_frame_ids →
        (((FrameGraph.new es).get_frame_id_path id = .error (.NoTransformPath id)) ↔
            ¬ ∃ p, IsSimplePath es id.parent_frame_id id.child_frame_id p) ∧
        (((FrameGraph.new es).get_frame_id_path id =
              .error (.MultipleTransformPaths id)) ↔
            ∃ p q, p ≠ q ∧ IsSimplePath es id.parent_frame_id id.child_frame_id p ∧
              IsSimplePath es id.parent_frame_id id.child_frame_id q) ∧
        (∀ p, (FrameGraph.new es).get_frame_id_path id = .ok p ↔
            (IsSimplePath es id.parent_frame_id id.child_frame_id p ∧
             ∀ q, IsSimplePath es id.parent_frame_id id.child_frame_id q → q = p))))) ∧
    FrameGraph.get_frame_id_path
        (FrameGraph.new [⟨"A", "B"⟩, ⟨"A", "C"⟩, ⟨"B", "D"⟩, ⟨"C", "D"⟩]) ⟨"A", "D"⟩ =
      .error (.MultipleTransformPaths ⟨"A", "D"⟩) := by
  constructor
  · intro es id hne
    refine ⟨?_, ?_, ?_⟩
    · intro hnp
      unfold FrameGraph.get_frame_id_path
      rw [if_pos hnp]
    · intro hp hnc
      unfold FrameGraph.get_frame_id_path
      rw [if_neg (not_not_intro hp), if_pos hnc]
    · intro hp hc
      have hmem : ∀ q, q ∈ (FrameGraph.new es).all_simple_paths id.parent_frame_id
          id.child_frame_id ↔ IsSimplePath es id.parent_frame_id id.child_frame_id q := by
        intro q
        rw [mem_all_simple_paths hne]
        exact isSimplePath_dedup
      have hnd := @all_simple_paths_nodup es id.parent_frame_id id.child_frame_id
      rw [get_frame_id_path_eq_match _ id hp hc]
      rcases hps : (FrameGraph.new es).all_simple_paths id.parent_frame_id
          id.child_frame_id with - | ⟨p0, - | ⟨p1, rest⟩⟩
      · simp only [hps, List.not_mem_nil, false_iff] at hmem
        refine ⟨?_, ?_, ?_⟩
        · simp only [true_iff, Except.error.injEq, reduceCtorEq]
          rintro ⟨q, hq⟩
          exact hmem q hq
        · constructor
          · intro h
            cases h
          · rintro ⟨q, -, -, hq, -⟩
            exact absurd hq (hmem q)
        · intro q
          constructor
          · intro h
            cases h
          · rintro ⟨hq, -⟩
            exact absurd hq (hmem q)
      · simp only [hps, List.mem_singleton] at hmem
        have hp0 : IsSimplePath es id.parent_frame_id id.child_frame_id p0 :=
          (hmem p0).mp rfl
        refine ⟨?_, ?_, ?_⟩
        · constructor
          · intro h
            cases h
          · intro h
            exact absurd ⟨p0, hp0⟩ h
        · constructor
          · intro h
            cases h
          · rintro ⟨q, q', hqq', hq, hq'⟩
            exact absurd (((hmem q).mpr hq).trans ((hmem q').mpr hq').symm) hqq'
        · intro q
          constructor
          · intro h
            have : p0 = q := by
              simpa using h
            subst this
            exact ⟨hp0, fun r hr => (hmem r).mpr hr⟩
          · rintro ⟨hq, -⟩
            rw [(hmem q).mpr hq]
      · simp only [hps, List.mem_cons] at hmem
        have hp0 : IsSimplePath es id.parent_frame_id id.child_frame_id p0 :=
          (hmem p0).mp (Or.inl rfl)
        have hp1 : IsSimplePath es id.parent_frame_id id.child_frame_id p1 :=
          (hmem p1).mp (Or.inr (Or.inl rfl))
        have hne01 : p0 ≠ p1 := by
          rw [hps] at hnd
          intro h
          exact (List.nodup_cons.mp hnd).1 (h ▸ List.mem_cons_self p1 rest)
        refine ⟨?_, ?_, ?_⟩
        · constructor
          · intro h
            cases h
          · intro h
            exact absurd ⟨p0, hp0⟩ h
        · constructor
          · intro _
            exact ⟨p0, p1, hne01, hp0, hp1⟩
          · intro _
            rfl
        · intro q
          constructor
          · intro h
            cases h
          · rintro ⟨-, huniq⟩
            exact absurd ((huniq p0 hp0).trans (huniq p1 hp1).symm) hne01
  · decide

/-- Witness for C4: an absent parent endpoint yields `InvalidFrameId`. -/
theorem c4_get_frame_id_path_spec_witness :
    FrameGraph.get_frame_id_path (FrameGraph.new []) ⟨"A", "B"⟩ =
      .error (.InvalidFrameId "A") :=
  (c4_get_frame_id_path_spec.1 [] ⟨"A", "B"⟩ (by decide)).1 (by decide)

/-! ## Claim C3 -/

/-- **C3** (code bug): for a Dynamic edge with strictly ascending samples at
t = 0 and t = 10 the query at the last sample time t = 10 lies in
`[t₀, tₙ]`, yet `DynamicTransform::interpolate` routes it to the
extrapolation branch (its test is `last_sample_time() <= timestamp`).  With
`extrapolation = Linear` the code then reaches the `panic!` of
`extrapolate_linear` whose own message says an in-range timestamp "must
therefore be interpolated" (modelled as `none`); with `Constant`
extrapolation the query returns the last sample's transform, but still via
the extrapolation branch, for either configured interpolation method. -/
theorem c3_last_sample_routed_to_extrapolation (slerp : Quat → Quat → ℚ → Quat)
    (interpolation : Option InterpolationMethod) :
    DynamicTransform.first_sample_time
        ⟨"odom", "base_link", interpolation, some .Linear,
          [⟨0, ⟨⟨0, 0, 0⟩, ⟨1, 0, 0, 0⟩⟩⟩, ⟨10, ⟨⟨10, 0, 0⟩, ⟨0, 1, 0, 0⟩⟩⟩]⟩ = some 0 ∧
    DynamicTransform.last_sample_time
        ⟨"odom", "base_link", interpolation, some .Linear,
          [⟨0, ⟨⟨0, 0, 0⟩, ⟨1, 0, 0, 0⟩⟩⟩, ⟨10, ⟨⟨10, 0, 0⟩, ⟨0, 1, 0, 0⟩⟩⟩]⟩ = some 10 ∧
    DynamicTransform.uses_extrapolation_branch
        ⟨"odom", "base_link", interpolation, some .Linear,
          [⟨0, ⟨⟨0, 0, 0⟩, ⟨1, 0, 0, 0⟩⟩⟩, ⟨10, ⟨⟨10, 0, 0⟩, ⟨0, 1, 0, 0⟩⟩⟩]⟩ 10 ∧
    DynamicTransform.interpolate slerp
        ⟨"odom", "base_link", interpolation, some .Linear,
          [⟨0, ⟨⟨0, 0, 0⟩, ⟨1, 0, 0, 0⟩⟩⟩, ⟨10, ⟨⟨10, 0, 0⟩, ⟨0, 1, 0, 0⟩⟩⟩]⟩ 10 = none ∧
    DynamicTransform.interpolate slerp
        ⟨"odom", "base_link", interpolation, some .Constant,
          [⟨0, ⟨⟨0, 0, 0⟩, ⟨1, 0, 0, 0⟩⟩⟩, ⟨10, ⟨⟨10, 0, 0⟩, ⟨0, 1, 0, 0⟩⟩⟩]⟩ 10 =
      some ⟨⟨10, 0, 0⟩, ⟨0, 1, 0, 0⟩⟩ := by
  refine ⟨rfl, rfl, ⟨0, 10, rfl, rfl, Or.inr (le_refl 10)⟩, ?_, ?_⟩
  · rfl
  · rfl

/-! ## Claim C5 -/

/-- **C5** (confirmed): `DynamicTransform::new` fails with `NoTransforms`
exactly on an empty sample vector; for a non-empty vector it fails with
`DuplicateTimestamp` exactly when two samples share a timestamp; on success
the stored samples are a strictly time-ascending permutation of the input;
and a single-sample Dynamic edge with `Constant` extrapolation answers
`at_time` with that sample's transform for every query time, identically to
a Static edge carrying that transform. -/
theorem c5_dynamic_new_spec :
    (∀ (p c : FrameId) (i : Option InterpolationMethod) (e : Option ExtrapolationMethod)
        (samples : List TimedTransform),
        (DynamicTransform.new p c i e samples = .error .NoTransforms ↔ samples = []) ∧
        (samples ≠ [] →
          ((∃ ts, DynamicTransform.new p c i e samples = .error (.DuplicateTimestamp ts)) ↔
            ¬ (samples.map (·.timestamp)).Nodup)) ∧
        (∀ d, DynamicTransform.new p c i e samples = .ok d →
            d.samples.Chain' (fun a b => a.timestamp < b.timestamp) ∧
            d.samples.Perm samples)) ∧
    (∀ (p c : FrameId) (i : Option InterpolationMethod) (s : TimedTransform)
        (slerp : Quat → Quat → ℚ → Quat) (ts : ℤ),
        DynamicTransform.new p c i (some .Constant) [s] = .ok ⟨p, c, i, some .Constant, [s]⟩ ∧
        TransformEdge.at_time slerp (.dynamic ⟨p, c, i, some .Constant, [s]⟩) ts =
          some s.transform ∧
        TransformEdge.at_time slerp (.dynamic ⟨p, c, i, some .Constant, [s]⟩) ts =
          TransformEdge.at_time slerp (.static ⟨p, c, s.transform⟩) ts) := by
  constructor
  · intro p c i e samples
    refine ⟨?_, ?_, ?_⟩
    · by_cases h : samples.isEmpty
      · simp [DynamicTransform.new, h, List.isEmpty_iff.mp h]
      · cases hfd : first_duplicate_timestamp (sort_by_timestamp samples) with
        | none =>
          simp [DynamicTransform.new, h, hfd]
          exact fun hh => h (by simp [hh])
        | some t =>
          simp [DynamicTransform.new, h, hfd]
          exact fun hh => h (by simp [hh])
    · intro hne
      have h : ¬ samples.isEmpty = true := fun hh => hne (List.isEmpty_iff.mp hh)
      have hperm := (sort_by_timestamp_perm samples).map (·.timestamp)
      cases hfd : first_duplicate_timestamp (sort_by_timestamp samples) with
      | none =>
        have hchain := first_duplicate_timestamp_eq_none.mp hfd
        have hnodup :=
          (chain'_ne_iff_nodup_map (sort_by_timestamp_sorted samples)).mp hchain
        simp only [DynamicTransform.new, h, Bool.false_eq_true, if_false, hfd]
        constructor
        · rintro ⟨ts, hts⟩
          cases hts
        · intro hnd
          exact absurd (hperm.nodup_iff.mp hnodup) hnd
      | some t =>
        have hnotchain : ¬ (sort_by_timestamp samples).Chain'
            (fun a b => a.timestamp ≠ b.timestamp) := by
          intro hc
          rw [first_duplicate_timestamp_eq_none.mpr hc] at hfd
          cases hfd
        simp only [DynamicTransform.new, h, Bool.false_eq_true, if_false, hfd]
        constructor
        · intro _
          intro hnd
          exact hnotchain
            ((chain'_ne_iff_nodup_map (sort_by_timestamp_sorted samples)).mpr
              (hperm.nodup_iff.mpr hnd))
        · intro _
          exact ⟨t, rfl⟩
    · intro d hd
      by_cases h : samples.isEmpty
      · simp [DynamicTransform.new, h] at hd
      · cases hfd : first_duplicate_timestamp (sort_by_timestamp samples) with
        | none =>
          simp only [DynamicTransform.new, h, Bool.false_eq_true, if_false, hfd,
            Except.ok.injEq] at hd
          subst hd
          refine ⟨?_, sort_by_timestamp_perm samples⟩
          exact chain'_lt_of_sorted_of_ne (sort_by_timestamp_sorted samples)
            (first_duplicate_timestamp_eq_none.mp hfd)
        | some t => simp [DynamicTransform.new, h, hfd] at hd
  · intro p c i s slerp ts
    have hnew : DynamicTransform.new p c i (some .Constant) [s] =
        .ok ⟨p, c, i, some .Constant, [s]⟩ := by
      simp [DynamicTransform.new, sort_by_timestamp, List.insertionSort,
        first_duplicate_timestamp]
    have hval : TransformEdge.at_time slerp (.dynamic ⟨p, c, i, some .Constant, [s]⟩) ts =
        some s.transform := by
      by_cases hlt : ts < s.timestamp
      · have hle : ts ≤ s.timestamp := le_of_lt hlt
        simp [TransformEdge.at_time, DynamicTransform.interpolate,
          DynamicTransform.first_sample_time, DynamicTransform.last_sample_time,
          extrapolate_constant, hlt, hle]
      · have hge : s.timestamp ≤ ts := le_of_not_lt hlt
        by_cases heq : ts ≤ s.timestamp
        · simp [TransformEdge.at_time, DynamicTransform.interpolate,
            DynamicTransform.first_sample_time, DynamicTransform.last_sample_time,
            extrapolate_constant, hlt, hge, heq]
        · simp [TransformEdge.at_time, DynamicTransform.interpolate,
            DynamicTransform.first_sample_time, DynamicTransform.last_sample_time,
            extrapolate_constant, hlt, hge, heq]
    exact ⟨hnew, hval, by rw [hval]; rfl⟩

/-- Witness for C5 at concrete inputs. -/
theorem c5_dynamic_new_spec_witness :
    DynamicTransform.new "map" "base_link" none (some .Constant)
        [⟨5, ⟨⟨1, 2, 3⟩, ⟨1, 0, 0, 0⟩⟩⟩] =
      .ok ⟨"map", "base_link", none, some .Constant, [⟨5, ⟨⟨1, 2, 3⟩, ⟨1, 0, 0, 0⟩⟩⟩]⟩ ∧
    TransformEdge.at_time (fun q _ _ => q)
        (.dynamic ⟨"map", "base_link", none, some .Constant,
          [⟨5, ⟨⟨1, 2, 3⟩, ⟨1, 0, 0, 0⟩⟩⟩]⟩) 99 = some ⟨⟨1, 2, 3⟩, ⟨1, 0, 0, 0⟩⟩ ∧
    DynamicTransform.new "map" "base_link" none none [] = .error .NoTransforms := by
  have h := c5_dynamic_new_spec
  have h4 := h.2 "map" "base_link" none ⟨5, ⟨⟨1, 2, 3⟩, ⟨1, 0, 0, 0⟩⟩⟩ (fun q _ _ => q) 99
  have h1 := (h.1 "map" "base_link" none none []).1
  exact ⟨h4.1, h4.2.1, h1.mpr rfl⟩

/-! ## Claim C10 -/

theorem lookup_filter_ne {κ ν : Type} [DecidableEq κ] (m : List (κ × ν)) (k k' : κ) :
    lookupKV (m.filter (fun p => p.1 ≠ k)) k' =
      if k' = k then none else lookupKV m k' := by
  induction m with
  | nil => by_cases hk : k' = k <;> simp [lookupKV, hk]
  | cons p m ih =>
    by_cases hp : p.1 = k <;> by_cases hpk' : p.1 = k' <;> by_cases hk : k' = k <;>
      simp_all [List.filter_cons, lookupKV]

theorem edge_transforms_at_time_none_of_removed (slerp : Quat → Quat → ℚ → Quat)
    (edges : List (TransformId × TransformEdge)) (timestamp : ℤ) (id : TransformId) :
    ∀ path : List TransformId, id ∈ path → lookupKV edges id = none →
      edge_transforms_at_time slerp edges path timestamp = none := by
  intro path
  induction path with
  | nil => intro h; cases h
  | cons tid rest ih =>
    intro hmem hnone
    rcases List.mem_cons.mp hmem with rfl | hmem'
    · simp [edge_transforms_at_time, option_traverse, hnone]
    · unfold edge_transforms_at_time option_traverse
      cases hfa : (lookupKV edges tid).bind (fun e => e.at_time slerp timestamp) with
      | none => rfl
      | some b =>
        have := ih hmem' hnone
        unfold edge_transforms_at_time at this
        simp [this]

/-- **C10** (confirmed): `remove_transform` mutates only the edges mapping —
the frames mapping, `get_frame_ids` and the derived frame graph are
unchanged, so path resolution still succeeds over paths traversing the
removed edge, and a subsequent `get_transform_at_time` along such a path hits
the `edges.get(..).expect("must exist")` panic instead of a typed error. -/
theorem c10_remove_transform_spec (t : TransformTree) (id : TransformId) :
    (t.remove_transform id).frames = t.frames ∧
    (t.remove_transform id).frame_graph = t.frame_graph ∧
    (t.remove_transform id).get_frame_ids = t.get_frame_ids ∧
    lookupKV (t.remove_transform id).edges id = none ∧
    (∀ k, k ≠ id → lookupKV (t.remove_transform id).edges k = lookupKV t.edges k) ∧
    (∀ (id' : TransformId) (path : List TransformId) (slerp : Quat → Quat → ℚ → Quat)
        (timestamp : ℤ),
      t.frame_graph.get_transform_id_path id' = .ok path →
      id ∈ path →
      (t.remove_transform id).get_transform_at_time slerp id' timestamp = .diverge) := by
  have hrem : ∀ k, lookupKV (t.remove_transform id).edges k =
      if k = id then none else lookupKV t.edges k := fun k => lookup_filter_ne t.edges id k
  refine ⟨rfl, rfl, rfl, ?_, ?_, ?_⟩
  · rw [hrem id, if_pos rfl]
  · intro k hk
    rw [hrem k, if_neg hk]
  · intro id' path slerp timestamp hpath hmem
    unfold TransformTree.get_transform_at_time
    have hg : (t.remove_transform id).frame_graph = t.frame_graph := rfl
    rw [hg, hpath]
    have hnone : lookupKV (t.remove_transform id).edges id = none := by
      rw [hrem id, if_pos rfl]
    have htr := edge_transforms_at_time_none_of_removed slerp
      (t.remove_transform id).edges timestamp id path hmem hnone
    simp [htr]

/-- Witness for C10 on a concrete tree: removing the only edge leaves the
frame graph stale and turns the query into a panic. -/
theorem c10_remove_transform_spec_witness :
    ((TransformTree.new [.static ⟨"a", "b", ⟨⟨0, 0, 0⟩, ⟨1, 0, 0, 0⟩⟩⟩]
        []).remove_transform ⟨"a", "b"⟩).get_transform_at_time (fun q _ _ => q)
      ⟨"a", "b"⟩ 0 = .diverge := by
  refine (c10_remove_transform_spec
    (TransformTree.new [.static ⟨"a", "b", ⟨⟨0, 0, 0⟩, ⟨1, 0, 0, 0⟩⟩⟩] [])
    ⟨"a", "b"⟩).2.2.2.2.2 ⟨"a", "b"⟩ [⟨"a", "b"⟩] (fun q _ _ => q) 0 (by decide) (by decide)

/-! ## Claim C1 -/

theorem keysOf_insertKV_mem {κ ν : Type} [DecidableEq κ] :
    ∀ (m : List (κ × ν)) (k : κ) (v : ν), k ∈ keysOf m →
      keysOf (insertKV m k v) = keysOf m
  | [], k, v, h => by simp [keysOf] at h
  | p :: m, k, v, h => by
    by_cases hp : p.1 = k
    · simp [insertKV, hp, keysOf]
    · have h' : k ∈ keysOf m := by
        simp only [keysOf, List.map_cons, List.mem_cons] at h
        exact h.resolve_left (fun hh => hp hh.symm)
      simp only [insertKV, hp, if_false, keysOf, List.map_cons]
      rw [show List.map Prod.fst (insertKV m k v) = keysOf (insertKV m k v) from rfl,
        keysOf_insertKV_mem m k v h']
      rfl

theorem keysOf_insertKV_not_mem {κ ν : Type} [DecidableEq κ] :
    ∀ (m : List (κ × ν)) (k : κ) (v : ν), k ∉ keysOf m →
      keysOf (insertKV m k v) = keysOf m ++ [k]
  | [], k, v, _ => rfl
  | p :: m, k, v, h => by
    have hp : ¬ p.1 = k := fun hh => h (by simp [keysOf, hh])
    have h' : k ∉ keysOf m := fun hh => h (by simp [keysOf] at hh ⊢; exact Or.inr hh)
    simp only [insertKV, hp, if_false, keysOf, List.map_cons]
    rw [show List.map Prod.fst (insertKV m k v) = keysOf (insertKV m k v) from rfl,
      keysOf_insertKV_not_mem m k v h']
    rfl

theorem insertKV_not_mem {κ ν : Type} [DecidableEq κ] :
    ∀ (m : List (κ × ν)) (k : κ) (v : ν), k ∉ keysOf m →
      insertKV m k v = m ++ [(k, v)]
  | [], k, v, _ => rfl
  | p :: m, k, v, h => by
    have hp : ¬ p.1 = k := fun hh => h (by simp [keysOf, hh])
    have h' : k ∉ keysOf m := fun hh => h (by simp [keysOf] at hh ⊢; exact Or.inr hh)
    simp only [insertKV, hp, if_false, List.cons_append, List.cons.injEq, true_and]
    exact insertKV_not_mem m k v h'

theorem foldl_insert_keyed {α κ : Type} [DecidableEq κ] (key : α → κ) :
    ∀ (vs : List α) (acc : List (κ × α)), (keysOf acc ++ vs.map key).Nodup →
      vs.foldl (fun m x => insertKV m (key x) x) acc = acc ++ vs.map (fun x => (key x, x))
  | [], acc, _ => by simp
  | x :: vs, acc, h => by
    have hx : key x ∉ keysOf acc := by
      intro hmem
      have := (List.nodup_append.mp h).2.2
      exact this hmem (by simp)
    rw [List.foldl_cons, insertKV_not_mem acc (key x) x hx]
    have h' : (keysOf (acc ++ [(key x, x)]) ++ vs.map key).Nodup := by
      have : keysOf (acc ++ [(key x, x)]) = keysOf acc ++ [key x] := by
        simp [keysOf]
      rw [this]
      have hperm : (keysOf acc ++ [key x]) ++ vs.map key =
          keysOf acc ++ ([key x] ++ vs.map key) := by simp
      rw [hperm]
      simpa using h
    rw [foldl_insert_keyed key vs (acc ++ [(key x, x)]) h']
    simp

theorem collect_edges_of_nodup (vs : List TransformEdge)
    (h : (vs.map TransformEdge.transform_id).Nodup) :
    collect_edges vs = vs.map (fun x => (x.transform_id, x)) := by
  unfold collect_edges
  rw [foldl_insert_keyed TransformEdge.transform_id vs [] (by simpa [keysOf] using h)]
  rfl

theorem collect_edges_of_map_wf (m : List (TransformId × TransformEdge))
    (hnd : (keysOf m).Nodup) (hid : ∀ p ∈ m, TransformEdge.transform_id p.2 = p.1) :
    collect_edges (m.map (·.2)) = m := by
  have hkeys : (m.map (·.2)).map TransformEdge.transform_id = keysOf m := by
    rw [List.map_map]
    exact List.map_congr_left (fun p hp => hid p hp)
  rw [collect_edges_of_nodup _ (by rw [hkeys]; exact hnd)]
  rw [List.map_map]
  have : ∀ p ∈ m, ((fun x => (TransformEdge.transform_id x, x)) ∘ (·.2)) p = p := by
    intro p hp
    simp [Function.comp, hid p hp]
  calc m.map (((fun x => (TransformEdge.transform_id x, x)) ∘ (·.2)))
      = m.map id := List.map_congr_left this
    _ = m := List.map_id m

theorem collect_frames_of_map_wf (m : List (FrameId × FrameInfo))
    (hnd : (keysOf m).Nodup) (hid : ∀ p ∈ m, FrameInfo.id p.2 = p.1) :
    collect_frames (m.map (·.2)) = m := by
  have hkeys : (m.map (·.2)).map FrameInfo.id = keysOf m := by
    rw [List.map_map]
    exact List.map_congr_left (fun p hp => hid p hp)
  unfold collect_frames
  rw [foldl_insert_keyed FrameInfo.id (m.map (·.2)) [] (by simpa [keysOf, hkeys] using hnd)]
  rw [List.nil_append, List.map_map]
  have : ∀ p ∈ m, ((fun x => (FrameInfo.id x, x)) ∘ (·.2)) p = p := by
    intro p hp
    simp [Function.comp, hid p hp]
  calc m.map (((fun x => (FrameInfo.id x, x)) ∘ (·.2)))
      = m.map id := List.map_congr_left this
    _ = m := List.map_id m

theorem add_missing_frame_present {m : List (FrameId × FrameInfo)} {f : FrameId}
    (h : f ∈ keysOf m) : add_missing_frame m f = m := by
  obtain ⟨v, hv⟩ := lookup_isSome_of_mem_keys h
  simp [add_missing_frame, hv]

theorem synthesize_frames_covered :
    ∀ (ids : List TransformId) (m : List (FrameId × FrameInfo)),
      (∀ id ∈ ids, id.parent_frame_id ∈ keysOf m ∧ id.child_frame_id ∈ keysOf m) →
      synthesize_frames m ids = m
  | [], m, _ => rfl
  | id :: ids, m, h => by
    unfold synthesize_frames
    rw [List.foldl_cons, add_missing_frame_present (h id (by simp)).1,
      add_missing_frame_present (h id (by simp)).2]
    exact synthesize_frames_covered ids m (fun i hi => h i (by simp [hi]))

theorem transform_id_parent (e : TransformEdge) :
    e.transform_id.parent_frame_id = e.parent_frame_id := by
  cases e <;> rfl

theorem transform_id_child (e : TransformEdge) :
    e.transform_id.child_frame_id = e.child_frame_id := by
  cases e <;> rfl

/-- **C1** (corrected): after `insert_edge`, the edges and frames mappings are
exactly those a fresh `TransformTree::new` over the previous edges plus the
new edge would produce, but the stored frame graph is left untouched (it is
not rebuilt), so `root_frames`, `child_frames` and path resolution keep
answering over the pre-insertion graph. -/
theorem c1_insert_edge_stale_graph (t : TransformTree) (e : TransformEdge)
    (hwf : t.maps_wf) :
    (t.insert_edge e).edges =
      (TransformTree.new (t.edges.map (·.2) ++ [e]) (t.frames.map (·.2))).edges ∧
    (t.insert_edge e).frames =
      (TransformTree.new (t.edges.map (·.2) ++ [e]) (t.frames.map (·.2))).frames ∧
    (t.insert_edge e).frame_graph = t.frame_graph ∧
    (t.insert_edge e).root_frames = t.root_frames ∧
    (t.insert_edge e).child_frames = t.child_frames := by
  obtain ⟨hend, hetid, hfnd, hfid, hcover⟩ := hwf
  have hedges : (TransformTree.new (t.edges.map (·.2) ++ [e])
      (t.frames.map (·.2))).edges = insertKV t.edges e.transform_id e := by
    show collect_edges (t.edges.map (·.2) ++ [e]) = _
    unfold collect_edges
    rw [List.foldl_append]
    rw [show (t.edges.map (·.2)).foldl (fun m x => insertKV m x.transform_id x) [] =
      collect_edges (t.edges.map (·.2)) from rfl]
    rw [collect_edges_of_map_wf t.edges hend hetid]
    rfl
  refine ⟨?_, ?_, rfl, rfl, rfl⟩
  · rw [hedges]
    rfl
  · show add_missing_frame (add_missing_frame t.frames e.parent_frame_id)
        e.child_frame_id = _
    show _ = synthesize_frames
        (collect_frames (t.frames.map (·.2)))
        (keysOf (TransformTree.new (t.edges.map (·.2) ++ [e]) (t.frames.map (·.2))).edges)
    rw [hedges, collect_frames_of_map_wf t.frames hfnd hfid]
    by_cases hmem : e.transform_id ∈ keysOf t.edges
    · rw [keysOf_insertKV_mem t.edges e.transform_id e hmem]
      have hcov : ∀ id ∈ keysOf t.edges,
          id.parent_frame_id ∈ keysOf t.frames ∧ id.child_frame_id ∈ keysOf t.frames := by
        intro id hid
        rw [keysOf, List.mem_map] at hid
        obtain ⟨p, hp, rfl⟩ := hid
        exact hcover p hp
      rw [synthesize_frames_covered _ _ hcov]
      have he : e.transform_id.parent_frame_id ∈ keysOf t.frames ∧
          e.transform_id.child_frame_id ∈ keysOf t.frames := hcov _ hmem
      rw [transform_id_parent, transform_id_child] at he
      rw [add_missing_frame_present he.1, add_missing_frame_present ?_]
      exact he.2
    · rw [keysOf_insertKV_not_mem t.edges e.transform_id e hmem]
      unfold synthesize_frames
      rw [List.foldl_append]
      rw [show (keysOf t.edges).foldl (fun m tid => add_missing_frame
          (add_missing_frame m tid.parent_frame_id) tid.child_frame_id) t.frames =
        synthesize_frames t.frames (keysOf t.edges) from rfl]
      have hcov : ∀ id ∈ keysOf t.edges,
          id.parent_frame_id ∈ keysOf t.frames ∧ id.child_frame_id ∈ keysOf t.frames := by
        intro id hid
        rw [keysOf, List.mem_map] at hid
        obtain ⟨p, hp, rfl⟩ := hid
        exact hcover p hp
      rw [synthesize_frames_covered _ _ hcov]
      simp [transform_id_parent, transform_id_child]

/-- Counterexample for C1 as stated: inserting an edge into an empty tree
does not make the frame graph (and hence `root_frames`) match a freshly
constructed tree. -/
theorem c1_counterexample :
    ((TransformTree.new [] []).insert_edge
        (.static ⟨"a", "b", ⟨⟨0, 0, 0⟩, ⟨1, 0, 0, 0⟩⟩⟩)).root_frames = ∅ ∧
    (TransformTree.new [.static ⟨"a", "b", ⟨⟨0, 0, 0⟩, ⟨1, 0, 0, 0⟩⟩⟩] []).root_frames =
      {"a"} ∧
    (∅ : Finset FrameId) ≠ {"a"} := by
  refine ⟨by decide, by decide, by decide⟩

/-- Witness for C1's amended statement at a concrete tree. -/
theorem c1_insert_edge_stale_graph_witness :
    ((TransformTree.new [] []).insert_edge
        (.static ⟨"a", "b", ⟨⟨0, 0, 0⟩, ⟨1, 0, 0, 0⟩⟩⟩)).edges =
      (TransformTree.new [.static ⟨"a", "b", ⟨⟨0, 0, 0⟩, ⟨1, 0, 0, 0⟩⟩⟩] []).edges ∧
    ((TransformTree.new [] []).insert_edge
        (.static ⟨"a", "b", ⟨⟨0, 0, 0⟩, ⟨1, 0, 0, 0⟩⟩⟩)).frame_graph =
      (TransformTree.new [] []).frame_graph := by
  have h := c1_insert_edge_stale_graph (TransformTree.new [] [])
    (.static ⟨"a", "b", ⟨⟨0, 0, 0⟩, ⟨1, 0, 0, 0⟩⟩⟩) (by decide)
  exact ⟨h.1, h.2.2.1⟩

/-! ## Claim C2 -/

theorem lookupKV_cons {κ ν : Type} [DecidableEq κ] (p : κ × ν) (m : List (κ × ν)) (k : κ) :
    lookupKV (p :: m) k = if p.1 = k then some p.2 else lookupKV m k := rfl

theorem option_traverse_cons {α β : Type} (f : α → Option β) (a : α) (l : List α) :
    option_traverse f (a :: l) =
      match f a with
      | none => none
      | some b => (option_traverse f l).map (b :: ·) := rfl

theorem transform_id_eq (e : TransformEdge) :
    e.transform_id = ⟨e.parent_frame_id, e.child_frame_id⟩ := by
  cases e <;> rfl

theorem snapshot_forall₂_keys {slerp : Quat → Quat → ℚ → Quat} {timestamp : ℤ} :
    ∀ (m : List (TransformId × TransformEdge)) (es : List TransformEdge),
      List.Forall₂ (fun (p : TransformId × TransformEdge) se =>
        (p.2.at_time slerp timestamp).map (fun tr =>
          TransformEdge.static ⟨p.2.parent_frame_id, p.2.child_frame_id, tr⟩) = some se)
        m es →
      (∀ p ∈ m, TransformEdge.transform_id p.2 = p.1) →
      es.map TransformEdge.transform_id = keysOf m
  | [], es, hf, _ => by
    cases hf
    rfl
  | p :: m, es, hf, hid => by
    cases hf with
    | cons hpse hrest =>
      rename_i se es'
      cases hat : p.2.at_time slerp timestamp with
      | none =>
        rw [hat] at hpse
        cases hpse
      | some tr =>
        rw [hat] at hpse
        have hse : se = .static ⟨p.2.parent_frame_id, p.2.child_frame_id, tr⟩ :=
          (Option.some.inj hpse).symm
        subst hse
        show TransformEdge.transform_id _ :: es'.map TransformEdge.transform_id = _
        rw [snapshot_forall₂_keys m es' hrest
          (fun q hq => hid q (List.mem_cons_of_mem _ hq))]
        have : TransformEdge.transform_id
            (.static ⟨p.2.parent_frame_id, p.2.child_frame_id, tr⟩) = p.1 := by
          rw [show TransformEdge.transform_id
              (.static ⟨p.2.parent_frame_id, p.2.child_frame_id, tr⟩) =
            (⟨p.2.parent_frame_id, p.2.child_frame_id⟩ : TransformId) from rfl]
          rw [← transform_id_eq p.2]
          exact hid p (List.mem_cons_self _ _)
        rw [this]
        rfl

theorem snapshot_lookup {slerp : Quat → Quat → ℚ → Quat} {timestamp : ℤ} :
    ∀ (m : List (TransformId × TransformEdge)) (es : List TransformEdge),
      List.Forall₂ (fun (p : TransformId × TransformEdge) se =>
        (p.2.at_time slerp timestamp).map (fun tr =>
          TransformEdge.static ⟨p.2.parent_frame_id, p.2.child_frame_id, tr⟩) = some se)
        m es →
      (∀ p ∈ m, TransformEdge.transform_id p.2 = p.1) →
      ∀ (k : TransformId) (e' : TransformEdge), lookupKV m k = some e' →
        ∃ tr, e'.at_time slerp timestamp = some tr ∧
          lookupKV (es.map (fun x => (x.transform_id, x))) k =
            some (.static ⟨e'.parent_frame_id, e'.child_frame_id, tr⟩)
  | [], es, hf, _, k, e', hk => by
    cases hf
    cases hk
  | p :: m, es, hf, hid, k, e', hk => by
    cases hf with
    | cons hpse hrest =>
      rename_i se es'
      cases hat : p.2.at_time slerp timestamp with
      | none =>
        rw [hat] at hpse
        cases hpse
      | some tr =>
        rw [hat] at hpse
        have hse : se = .static ⟨p.2.parent_frame_id, p.2.child_frame_id, tr⟩ :=
          (Option.some.inj hpse).symm
        subst hse
        have hsetid : TransformEdge.transform_id
            (.static ⟨p.2.parent_frame_id, p.2.child_frame_id, tr⟩) = p.1 := by
          rw [show TransformEdge.transform_id
              (.static ⟨p.2.parent_frame_id, p.2.child_frame_id, tr⟩) =
            (⟨p.2.parent_frame_id, p.2.child_frame_id⟩ : TransformId) from rfl]
          rw [← transform_id_eq p.2]
          exact hid p (List.mem_cons_self _ _)
        by_cases hpk : p.1 = k
        · have he' : e' = p.2 := by
            rw [lookupKV_cons, if_pos hpk] at hk
            exact (Option.some.inj hk).symm
          subst he'
          refine ⟨tr, hat, ?_⟩
          rw [List.map_cons, lookupKV_cons]
          rw [show ((fun (x : TransformEdge) => (x.transform_id, x))
              (.static ⟨p.2.parent_frame_id, p.2.child_frame_id, tr⟩)).1 =
            TransformEdge.transform_id
              (.static ⟨p.2.parent_frame_id, p.2.child_frame_id, tr⟩) from rfl]
          rw [hsetid, if_pos hpk]
        · have hk' : lookupKV m k = some e' := by
            rw [lookupKV_cons, if_neg hpk] at hk
            exact hk
          obtain ⟨tr', h1, h2⟩ := snapshot_lookup m es' hrest
            (fun q hq => hid q (List.mem_cons_of_mem _ hq)) k e' hk'
          refine ⟨tr', h1, ?_⟩
          rw [List.map_cons, lookupKV_cons]
          rw [show ((fun (x : TransformEdge) => (x.transform_id, x))
              (.static ⟨p.2.parent_frame_id, p.2.child_frame_id, tr⟩)).1 =
            TransformEdge.transform_id
              (.static ⟨p.2.parent_frame_id, p.2.child_frame_id, tr⟩) from rfl]
          rw [hsetid, if_neg hpk]
          exact h2

theorem get_frame_id_path_ok_chain {g : FrameGraph} {id : TransformId}
    {fp : List FrameId} (h : g.get_frame_id_path id = .ok fp) :
    fp.Chain' (edge_mem g.edge_list) := by
  unfold FrameGraph.get_frame_id_path at h
  by_cases hp : id.parent_frame_id ∉ g.get_frame_ids
  · rw [if_pos hp] at h
    cases h
  · rw [if_neg hp] at h
    by_cases hc : id.child_frame_id ∉ g.get_frame_ids
    · rw [if_pos hc] at h
      cases h
    · rw [if_neg hc] at h
      rcases hps : g.all_simple_paths id.parent_frame_id id.child_frame_id
        with - | ⟨p0, - | ⟨p1, rest⟩⟩ <;> rw [hps] at h
      · cases h
      · have hfp : p0 = fp := by
          simpa using h
        subst hfp
        have hmem : p0 ∈ g.all_simple_paths id.parent_frame_id id.child_frame_id := by
          rw [hps]
          simp
        exact ((mem_simple_paths_from _ _ _ [] p0 (by simp)).mp hmem).2.2.2.2.2
      · cases h

theorem window_pairs_subset {es : List TransformId} :
    ∀ {fp : List FrameId}, fp.Chain' (edge_mem es) → ∀ q ∈ window_pairs fp, q ∈ es := by
  intro fp
  induction fp with
  | nil =>
    intro _ q hq
    cases hq
  | cons a rest ih =>
    intro hchain q hq
    cases rest with
    | nil => cases hq
    | cons b r =>
      rw [show window_pairs (a :: b :: r) = ⟨a, b⟩ :: window_pairs (b :: r) from rfl] at hq
      rcases List.mem_cons.mp hq with rfl | hq'
      · exact (List.chain'_cons.mp hchain).1
      · exact ih (List.chain'_cons.mp hchain).2 q hq'

theorem path_eval_eq {slerp : Quat → Quat → ℚ → Quat} {timestamp : ℤ}
    {m : List (TransformId × TransformEdge)} {m2 : List (TransformId × TransformEdge)}
    (hlk : ∀ (k : TransformId) (e' : TransformEdge), lookupKV m k = some e' →
      ∃ tr, e'.at_time slerp timestamp = some tr ∧
        lookupKV m2 k = some (.static ⟨e'.parent_frame_id, e'.child_frame_id, tr⟩)) :
    ∀ (path : List TransformId), (∀ tid ∈ path, tid ∈ keysOf m) →
      ∃ trs, edge_transforms_at_time slerp m path timestamp = some trs ∧
        static_edge_transforms m2 path = .ok trs
  | [], _ => ⟨[], rfl, rfl⟩
  | tid :: rest, hmem => by
    obtain ⟨e', he'⟩ := lookup_isSome_of_mem_keys (hmem tid (by simp))
    obtain ⟨tr, hat, hlk2⟩ := hlk tid e' he'
    obtain ⟨trs, h1, h2⟩ := path_eval_eq hlk rest (fun q hq => hmem q (by simp [hq]))
    refine ⟨tr :: trs, ?_, ?_⟩
    · unfold edge_transforms_at_time at h1 ⊢
      rw [option_traverse_cons, he']
      simp only [Option.some_bind, hat, h1, Option.map_some']
    · unfold static_edge_transforms
      simp [hlk2, h2]

/-- **C2** (corrected): for a `TransformTree` whose frame graph is the one
derived from its current edges (as after `TransformTree::new`; `insert_edge`
and `remove_transform` break this, see C1/C10) and whose snapshot at `t`
completes without panicking, `static_snapshot_at(t).get_static_transform(id)`
returns exactly `get_transform_at_time(id, t)` for every `id` whose path
resolves. -/
theorem c2_snapshot_commutes (slerp : Quat → Quat → ℚ → Quat) (t : TransformTree)
    (id : TransformId) (timestamp : ℤ) (t2 : TransformTree) (path : List TransformId)
    (hwf : t.maps_wf) (hgc : t.graph_consistent)
    (hsnap : t.static_snapshot_at slerp timestamp = some t2)
    (hpath : t.frame_graph.get_transform_id_path id = .ok path) :
    ∃ tr, t2.get_static_transform id = .ok tr ∧
      t.get_transform_at_time slerp id timestamp = .ok tr ∧
      t2.get_static_transform id = t.get_transform_at_time slerp id timestamp := by
  obtain ⟨hend, hetid, hfnd, hfid, hcover⟩ := hwf
  unfold TransformTree.static_snapshot_at at hsnap
  cases htrav : option_traverse (fun (p : TransformId × TransformEdge) =>
      (p.2.at_time slerp timestamp).map (fun tr =>
        TransformEdge.static ⟨p.2.parent_frame_id, p.2.child_frame_id, tr⟩)) t.edges with
  | none =>
    rw [htrav] at hsnap
    cases hsnap
  | some es =>
    rw [htrav] at hsnap
    have ht2 : t2 = TransformTree.new es (t.frames.map (·.2)) :=
      (Option.some.inj hsnap).symm
    subst ht2
    have hfa := (option_traverse_eq_some _ t.edges es).mp htrav
    have hkeys : es.map TransformEdge.transform_id = keysOf t.edges :=
      snapshot_forall₂_keys t.edges es hfa hetid
    have hesnd : (es.map TransformEdge.transform_id).Nodup := by
      rw [hkeys]
      exact hend
    have hcollect : collect_edges es = es.map (fun x => (x.transform_id, x)) :=
      collect_edges_of_nodup es hesnd
    have ht2edges : (TransformTree.new es (t.frames.map (·.2))).edges =
        es.map (fun x => (x.transform_id, x)) := hcollect
    have ht2keys : keysOf (TransformTree.new es (t.frames.map (·.2))).edges =
        keysOf t.edges := by
      rw [ht2edges]
      unfold keysOf
      rw [List.map_map]
      exact hkeys
    have ht2graph : (TransformTree.new es (t.frames.map (·.2))).frame_graph =
        t.frame_graph := by
      show FrameGraph.new (keysOf (collect_edges es)) = t.frame_graph
      rw [show keysOf (collect_edges es) =
        keysOf (TransformTree.new es (t.frames.map (·.2))).edges from rfl]
      rw [ht2keys, hgc]
    have hchain : ∀ q ∈ path, q ∈ keysOf t.edges := by
      unfold FrameGraph.get_transform_id_path at hpath
      cases hfp : t.frame_graph.get_frame_id_path id with
      | error e =>
        rw [hfp] at hpath
        cases hpath
      | ok fp =>
        rw [hfp] at hpath
        have hpw : window_pairs fp = path := by
          simpa [FrameGraph.get_transform_id_path, Except.map] using hpath
        subst hpw
        intro q hq
        have hchain' := get_frame_id_path_ok_chain hfp
        have hmemq := window_pairs_subset hchain' q hq
        have : t.frame_graph.edge_list = (keysOf t.edges).dedup := by
          rw [hgc]
          rfl
        rw [this] at hmemq
        exact List.mem_dedup.mp hmemq
    obtain ⟨trs, htrs1, htrs2⟩ := path_eval_eq
      (snapshot_lookup t.edges es hfa hetid) path hchain
    have hsimp1 : (TransformTree.new es (t.frames.map (·.2))).get_static_transform id =
        .ok (Transform.fromIsometry (fold_isometries trs)) := by
      unfold TransformTree.get_static_transform
      rw [ht2graph]
      simp only [hpath]
      rw [show (TransformTree.new es (t.frames.map (·.2))).edges =
        es.map (fun x => (x.transform_id, x)) from hcollect]
      simp only [htrs2]
    have hsimp2 : t.get_transform_at_time slerp id timestamp =
        .ok (Transform.fromIsometry (fold_isometries trs)) := by
      unfold TransformTree.get_transform_at_time
      simp only [hpath]
      simp only [htrs1]
    exact ⟨Transform.fromIsometry (fold_isometries trs), hsimp1, hsimp2,
      hsimp1.trans hsimp2.symm⟩

/-- Counterexample for C2 as stated over every `TransformTree`: after
`remove_transform` the frame graph is stale, so the path for (a, b) still
resolves, the live query panics at the removed edge, while the snapshot
(rebuilt from the current, empty edge map) answers `InvalidFrameId`. -/
theorem c2_counterexample :
    ((TransformTree.new [.static ⟨"a", "b", ⟨⟨0, 0, 0⟩, ⟨1, 0, 0, 0⟩⟩⟩]
        []).remove_transform ⟨"a", "b"⟩).frame_graph.get_frame_id_path ⟨"a", "b"⟩ =
      .ok ["a", "b"] ∧
    (((TransformTree.new [.static ⟨"a", "b", ⟨⟨0, 0, 0⟩, ⟨1, 0, 0, 0⟩⟩⟩]
        []).remove_transform ⟨"a", "b"⟩).static_snapshot_at (fun q _ _ => q) 0).map
      (fun t2 => t2.get_static_transform ⟨"a", "b"⟩) =
      some (.err (.InvalidFrameId "a")) ∧
    ((TransformTree.new [.static ⟨"a", "b", ⟨⟨0, 0, 0⟩, ⟨1, 0, 0, 0⟩⟩⟩]
        []).remove_transform ⟨"a", "b"⟩).get_transform_at_time (fun q _ _ => q)
      ⟨"a", "b"⟩ 0 = .diverge := by
  refine ⟨by decide, by decide, by decide⟩

/-- Witness for C2's amended statement on a concrete static tree. -/
theorem c2_snapshot_commutes_witness :
    ∃ tr, (TransformTree.new [.static ⟨"a", "b", ⟨⟨1, 2, 3⟩, ⟨1, 0, 0, 0⟩⟩⟩]
        [⟨"a", none, none⟩, ⟨"b", none, none⟩]).get_static_transform ⟨"a", "b"⟩ =
      .ok tr ∧
    (TransformTree.new [.static ⟨"a", "b", ⟨⟨1, 2, 3⟩, ⟨1, 0, 0, 0⟩⟩⟩]
        []).get_transform_at_time (fun q _ _ => q) ⟨"a", "b"⟩ 0 = .ok tr ∧
    (TransformTree.new [.static ⟨"a", "b", ⟨⟨1, 2, 3⟩, ⟨1, 0, 0, 0⟩⟩⟩]
        [⟨"a", none, none⟩, ⟨"b", none, none⟩]).get_static_transform ⟨"a", "b"⟩ =
      (TransformTree.new [.static ⟨"a", "b", ⟨⟨1, 2, 3⟩, ⟨1, 0, 0, 0⟩⟩⟩]
        []).get_transform_at_time (fun q _ _ => q) ⟨"a", "b"⟩ 0 := by
  have h := c2_snapshot_commutes (fun q _ _ => q)
    (TransformTree.new [.static ⟨"a", "b", ⟨⟨1, 2, 3⟩, ⟨1, 0, 0, 0⟩⟩⟩] [])
    ⟨"a", "b"⟩ 0
    (TransformTree.new [.static ⟨"a", "b", ⟨⟨1, 2, 3⟩, ⟨1, 0, 0, 0⟩⟩⟩]
      [⟨"a", none, none⟩, ⟨"b", none, none⟩])
    [⟨"a", "b"⟩] (by decide) (by decide) (by decide) (by decide)
  exact h


/-! ## Claim C8 -/

theorem max_by_key_foldl_mem {α : Type} (f : α → ℤ) (l : List α) :
    ∀ (acc : Option α) (a : α),
      List.foldl (fun acc x => match acc with
        | none => some x
        | some b => if f b ≤ f x then some x else some b) acc l = some a →
      a ∈ l ∨ acc = some a := by
  induction l with
  | nil => exact fun acc a h => Or.inr h
  | cons x l ih =>
    intro acc a h
    rw [List.foldl_cons] at h
    rcases ih _ a h with hmem | hacc
    · exact Or.inl (List.mem_cons_of_mem _ hmem)
    · cases acc with
      | none =>
        have hx : some x = some a := hacc
        exact Or.inl (Option.some.inj hx ▸ List.mem_cons_self x l)
      | some b =>
        by_cases hle : f b ≤ f x
        · have hx : some x = some a := (if_pos hle : (if f b ≤ f x then some x
            else some b) = some x).symm.trans hacc
          exact Or.inl (Option.some.inj hx ▸ List.mem_cons_self x l)
        · have hb : some b = some a := (if_neg hle : (if f b ≤ f x then some x
            else some b) = some b).symm.trans hacc
          exact Or.inr hb

theorem max_by_key_foldl_le {α : Type} (f : α → ℤ) (l : List α) :
    ∀ (acc : Option α) (a : α),
      List.foldl (fun acc x => match acc with
        | none => some x
        | some b => if f b ≤ f x then some x else some b) acc l = some a →
      (∀ b ∈ l, f b ≤ f a) ∧ (∀ c, acc = some c → f c ≤ f a) := by
  induction l with
  | nil =>
    intro acc a h
    refine ⟨by simp, fun c hc => ?_⟩
    have hca : some c = some a := hc.symm.trans h
    exact le_of_eq (congrArg f (Option.some.inj hca))
  | cons x l ih =>
    intro acc a h
    rw [List.foldl_cons] at h
    obtain ⟨h1, h2⟩ := ih _ a h
    refine ⟨fun b hb => ?_, fun c hc => ?_⟩
    · rcases List.mem_cons.mp hb with rfl | hb'
      · cases acc with
        | none => exact h2 b rfl
        | some b0 =>
          by_cases hle : f b0 ≤ f b
          · exact h2 b (if_pos hle)
          · exact le_trans (le_of_not_le hle) (h2 b0 (if_neg hle))
      · exact h1 b hb'
    · cases acc with
      | none => cases hc
      | some b0 =>
        have hcb : b0 = c := Option.some.inj hc
        rw [← hcb]
        by_cases hle : f b0 ≤ f x
        · exact le_trans hle (h2 x (if_pos hle))
        · exact h2 b0 (if_neg hle)

theorem max_by_key_last_mem {α : Type} (f : α → ℤ) (l : List α) (a : α)
    (h : max_by_key_last f l = some a) : a ∈ l := by
  rcases max_by_key_foldl_mem f l none a h with hm | hm
  · exact hm
  · cases hm

theorem max_by_key_last_le {α : Type} (f : α → ℤ) (l : List α) (a : α)
    (h : max_by_key_last f l = some a) : ∀ b ∈ l, f b ≤ f a :=
  (max_by_key_foldl_le f l none a h).1

/-- **C8** (corrected): the per-`TransformId` channel selection of
`derive_transform_graph` does pick, for every group, an entry of the selected
transforms whose channel priority is maximal in the group (with a channel
lacking a `ChannelInfo` priority defaulting to `0`), and for two channels of
priorities `p₁ < p₂` sharing a `TransformId` the higher-priority channel's
samples are selected exclusively in either iteration order; but an
equal-priority tie is broken by `Iterator::max_by_key`, which keeps the
**last** maximal entry in the `HashMap` iteration order, not the
lexicographically least channel id (see the counterexample). -/
theorem c8_priority_selection (rf : ReferenceFrames)
    (selected : List ((ChannelId × TransformId) × List RFTransform))
    (tid : TransformId) (ch : ChannelId) (trs : List RFTransform)
    (hmem : (tid, (ch, trs)) ∈ prioritized_selected_transforms rf selected) :
    ((ch, tid), trs) ∈ selected ∧
    (∀ q ∈ selected, q.1.2 = tid →
      rf.channel_priority_of q.1.1 ≤ rf.channel_priority_of ch) ∧
    ((lookupKV rf.channel_info ch).bind (fun ci => ChannelInfo.priority ci) = none →
      rf.channel_priority_of ch = 0) ∧
    (∀ (c1 c2 : ChannelId) (tid2 : TransformId) (l1 l2 : List RFTransform),
      rf.channel_priority_of c1 < rf.channel_priority_of c2 →
        prioritized_selected_transforms rf [((c1, tid2), l1), ((c2, tid2), l2)] =
          [(tid2, (c2, l2))] ∧
        prioritized_selected_transforms rf [((c2, tid2), l2), ((c1, tid2), l1)] =
          [(tid2, (c2, l2))]) := by
  unfold prioritized_selected_transforms at hmem
  obtain ⟨tid', htid', heq⟩ := List.mem_filterMap.mp hmem
  cases hbest : max_by_key_last (fun p => rf.channel_priority_of p.1.1)
      (selected.filter (fun p => p.1.2 = tid')) with
  | none => rw [hbest] at heq; cases heq
  | some best =>
    rw [hbest] at heq
    simp only [Option.map_some', Option.some.injEq, Prod.mk.injEq] at heq
    obtain ⟨h_tid, h_ch, h_trs⟩ := heq
    rw [h_tid] at hbest
    have hbmem := max_by_key_last_mem _ _ _ hbest
    have hbfil := List.mem_filter.mp hbmem
    have hb2 : best.1.2 = tid := by simpa using hbfil.2
    refine ⟨?_, ?_, ?_, ?_⟩
    · have hbe : best = ((ch, tid), trs) := by
        obtain ⟨⟨bc, bt⟩, bl⟩ := best
        simp only at h_ch h_trs hb2
        rw [h_ch, h_trs, hb2]
      exact hbe ▸ hbfil.1
    · intro q hq hq2
      have hqf : q ∈ selected.filter (fun p => p.1.2 = tid) :=
        List.mem_filter.mpr ⟨hq, by simpa using hq2⟩
      have := max_by_key_last_le _ _ _ hbest q hqf
      rw [h_ch] at this
      exact this
    · intro hnone
      unfold ReferenceFrames.channel_priority_of ReferenceFrames.get_channel_priority
      by_cases hch : ch ∈ rf.get_channel_ids
      · simp [hch, hnone]
      · simp [hch]
    · intro c1 c2 tid2 l1 l2 hlt
      have hfil1 : List.filter (fun p => decide (p.1.2 = tid2))
          [((c1, tid2), l1), ((c2, tid2), l2)] =
          [((c1, tid2), l1), ((c2, tid2), l2)] := by simp
      have hfil2 : List.filter (fun p => decide (p.1.2 = tid2))
          [((c2, tid2), l2), ((c1, tid2), l1)] =
          [((c2, tid2), l2), ((c1, tid2), l1)] := by simp
      have hmax1 : max_by_key_last (fun p => rf.channel_priority_of p.1.1)
          [((c1, tid2), l1), ((c2, tid2), l2)] = some ((c2, tid2), l2) := by
        show (if rf.channel_priority_of c1 ≤ rf.channel_priority_of c2
          then some ((c2, tid2), l2) else some ((c1, tid2), l1)) = some ((c2, tid2), l2)
        rw [if_pos (le_of_lt hlt)]
      have hmax2 : max_by_key_last (fun p => rf.channel_priority_of p.1.1)
          [((c2, tid2), l2), ((c1, tid2), l1)] = some ((c2, tid2), l2) := by
        show (if rf.channel_priority_of c2 ≤ rf.channel_priority_of c1
          then some ((c1, tid2), l1) else some ((c2, tid2), l2)) = some ((c2, tid2), l2)
        rw [if_neg (not_le.mpr hlt)]
      have hded1 : (([((c1, tid2), l1), ((c2, tid2), l2)]).map
          (fun p => p.1.2)).dedup = [tid2] := by simp
      have hded2 : (([((c2, tid2), l2), ((c1, tid2), l1)]).map
          (fun p => p.1.2)).dedup = [tid2] := by simp
      constructor
      · unfold prioritized_selected_transforms
        rw [hded1]
        simp only [List.filterMap_cons, List.filterMap_nil, hfil1, hmax1,
          Option.map_some']
      · unfold prioritized_selected_transforms
        rw [hded2]
        simp only [List.filterMap_cons, List.filterMap_nil, hfil2, hmax2,
          Option.map_some']

/-- **C8 counterexample**: two channels `"a"` and `"b"` with **equal** priority
`1` both supply samples for the same `TransformId`. In one `HashMap` iteration
order `derive_transform_graph` evaluates channel `"b"`'s sample, in the other
channel `"a"`'s: the tie is broken by the last entry in iteration order, not
by lexicographic channel-id order (which would pick `"a"` both times). -/
theorem c8_counterexample :
    ReferenceFrames.derive_transform_graph (fun _ q _ => q)
        ⟨[(("a", ⟨"p", "c"⟩), [⟨0, ⟨1, 0, 0⟩, ⟨1, 0, 0, 0⟩⟩]),
          (("b", ⟨"p", "c"⟩), [⟨0, ⟨2, 0, 0⟩, ⟨1, 0, 0, 0⟩⟩])],
         [], [("a", ⟨some 1⟩), ("b", ⟨some 1⟩)], []⟩ none (some 0) =
      .ok ⟨[(⟨"p", "c"⟩, ⟨⟨2, 0, 0⟩, ⟨1, 0, 0, 0⟩⟩)]⟩ ∧
    ReferenceFrames.derive_transform_graph (fun _ q _ => q)
        ⟨[(("b", ⟨"p", "c"⟩), [⟨0, ⟨2, 0, 0⟩, ⟨1, 0, 0, 0⟩⟩]),
          (("a", ⟨"p", "c"⟩), [⟨0, ⟨1, 0, 0⟩, ⟨1, 0, 0, 0⟩⟩])],
         [], [("a", ⟨some 1⟩), ("b", ⟨some 1⟩)], []⟩ none (some 0) =
      .ok ⟨[(⟨"p", "c"⟩, ⟨⟨1, 0, 0⟩, ⟨1, 0, 0, 0⟩⟩)]⟩ := by
  constructor <;> decide

theorem c8_priority_selection_witness :
    ((("b", (⟨"p", "c"⟩ : TransformId)), ([] : List RFTransform)) ∈
      ([(("a", (⟨"p", "c"⟩ : TransformId)), ([] : List RFTransform)),
        (("b", ⟨"p", "c"⟩), [])] :
        List ((ChannelId × TransformId) × List RFTransform))) :=
  (c8_priority_selection
    ⟨[(("a", ⟨"p", "c"⟩), []), (("b", ⟨"p", "c"⟩), [])], [], [("b", ⟨some 2⟩)], []⟩
    [(("a", ⟨"p", "c"⟩), []), (("b", ⟨"p", "c"⟩), [])]
    ⟨"p", "c"⟩ "b" [] (by decide)).1

/-! ## Claim C9 -/

theorem rf_new_no_collision
    (transforms : List ((ChannelId × TransformId) × List RFTransform))
    (frame_info : List (FrameId × FrameInfo))
    (channel_info : List (ChannelId × ChannelInfo))
    (transform_info : List (TransformId × TransformInfo))
    (c : ChannelId) (t : TransformId) :
    ReferenceFrames.new transforms frame_info channel_info transform_info ≠
      .err (.ChannelTransformCollisions c t) := by
  unfold ReferenceFrames.new
  by_cases h1 : transforms.isEmpty
  · simp [h1]
  · rw [if_neg (by simpa using h1)]
    by_cases h2 : (keysOf frame_info).any (fun f => ! references_frame transforms f)
    · simp [h2]
    · rw [if_neg (by simpa using h2)]
      cases hf : transforms.find? (fun p => ! rf_strict_sorted p.2) with
      | some p => simp [hf]
      | none => simp [hf]

theorem merge_collision_some (rfs : List ReferenceFrames)
    (key : ChannelId × TransformId) (h : merge_collision rfs = some key) :
    key ∈ rfs.flatMap (fun r => keysOf r.transforms) ∧
    1 < rfs.countP (fun r => decide (key ∈ keysOf r.transforms)) := by
  unfold merge_collision at h
  refine ⟨List.mem_dedup.mp (List.mem_of_find?_eq_some h), ?_⟩
  have := List.find?_some h
  simpa using this

theorem merge_collision_none (rfs : List ReferenceFrames)
    (h : merge_collision rfs = none) (key : ChannelId × TransformId) :
    rfs.countP (fun r => decide (key ∈ keysOf r.transforms)) ≤ 1 := by
  by_cases hk : key ∈ rfs.flatMap (fun r => keysOf r.transforms)
  · unfold merge_collision at h
    have := List.find?_eq_none.mp h key (List.mem_dedup.mpr hk)
    simpa using this
  · have hz : rfs.countP (fun r => decide (key ∈ keysOf r.transforms)) = 0 := by
      rw [List.countP_eq_zero]
      intro r hr
      simp only [decide_eq_true_eq]
      intro hkr
      exact hk (List.mem_flatMap.mpr ⟨r, hr, hkr⟩)
    omega

/-- **C9** (corrected): `merge` fails with `ChannelTransformCollisions` exactly
when some **`(ChannelId, TransformId)`** key is defined by more than one input
(not a bare `TransformId`: the same `TransformId` under two different channels
merges fine, see the counterexample); the reported key is one defined by more
than one input, and when `merge` succeeds the inputs are pairwise disjoint
over `(ChannelId, TransformId)` keys. -/
theorem c9_merge_collisions_spec (rfs : List ReferenceFrames) :
    ((∃ c t, merge rfs = .err (.ChannelTransformCollisions c t)) ↔
      (∃ key ∈ rfs.flatMap (fun r => keysOf r.transforms),
        1 < rfs.countP (fun r => decide (key ∈ keysOf r.transforms)))) ∧
    (∀ (c : ChannelId) (t : TransformId),
      merge rfs = .err (.ChannelTransformCollisions c t) →
        1 < rfs.countP (fun r => decide ((c, t) ∈ keysOf r.transforms))) ∧
    (∀ r, merge rfs = .ok r →
      ∀ key : ChannelId × TransformId,
        rfs.countP (fun r' => decide (key ∈ keysOf r'.transforms)) ≤ 1) := by
  refine ⟨⟨?_, ?_⟩, ?_, ?_⟩
  · rintro ⟨c, t, h⟩
    cases hm : merge_collision rfs with
    | some key =>
      exact ⟨key, (merge_collision_some rfs key hm).1,
        (merge_collision_some rfs key hm).2⟩
    | none =>
      exfalso
      unfold merge at h
      rw [hm] at h
      exact rf_new_no_collision _ _ _ _ c t h
  · rintro ⟨key, hkmem, hkcnt⟩
    cases hm : merge_collision rfs with
    | some k =>
      refine ⟨k.1, k.2, ?_⟩
      unfold merge
      rw [hm]
    | none =>
      exfalso
      have := merge_collision_none rfs hm key
      omega
  · intro c t h
    cases hm : merge_collision rfs with
    | some key =>
      obtain ⟨k1, k2⟩ := key
      have hk := merge_collision_some rfs (k1, k2) hm
      unfold merge at h
      rw [hm] at h
      have h' : Error.ChannelTransformCollisions k1 k2 =
          Error.ChannelTransformCollisions c t := by
        injection h
      have hc : k1 = c := by injection h'
      have ht : k2 = t := by
        have := h'
        injection this with hh1 hh2
      rw [hc, ht] at hk
      exact hk.2
    | none =>
      exfalso
      unfold merge at h
      rw [hm] at h
      exact rf_new_no_collision _ _ _ _ c t h
  · intro r h key
    cases hm : merge_collision rfs with
    | some k =>
      exfalso
      unfold merge at h
      rw [hm] at h
      exact PRes.noConfusion h
    | none => exact merge_collision_none rfs hm key

/-- **C9 counterexample**: two inputs define the same bare `TransformId`
`("p","c")` under two different channels `"a"` and `"b"`; contrary to the
claim's "edge sets pairwise disjoint over TransformIds", `merge` succeeds and
unions both sample vectors, because the collision scan keys on
`(ChannelId, TransformId)`. -/
theorem c9_counterexample :
    merge [⟨[(("a", ⟨"p", "c"⟩), [⟨0, ⟨1, 0, 0⟩, ⟨1, 0, 0, 0⟩⟩])], [], [], []⟩,
           ⟨[(("b", ⟨"p", "c"⟩), [⟨2, ⟨2, 0, 0⟩, ⟨1, 0, 0, 0⟩⟩])], [], [], []⟩] =
      .ok ⟨[(("a", ⟨"p", "c"⟩), [⟨0, ⟨1, 0, 0⟩, ⟨1, 0, 0, 0⟩⟩]),
            (("b", ⟨"p", "c"⟩), [⟨2, ⟨2, 0, 0⟩, ⟨1, 0, 0, 0⟩⟩])], [], [], []⟩ := by
  decide

/-! ## Claim C6 -/

theorem compute_child_result_assigned {α : Type} (center : α → Vec3)
    (bounds : OctreeBounds) (k : ℕ) (child : OctantIndex) (pending : List α)
    (l : List α)
    (h : (compute_child_result center bounds k child pending).assigned_items = some l) :
    1 ≤ l.length ∧ l.length ≤ k := by
  set fil := pending.filter (fun x =>
    (bounds.get_octant_bounding_cube child).contains_point (center x)) with hfil
  have h' : (if (if k < fil.length then fil.take k else fil).isEmpty = true then none
      else some (if k < fil.length then fil.take k else fil)) = some l := h
  by_cases hover : k < fil.length
  · rw [if_pos hover] at h'
    by_cases he : (fil.take k).isEmpty = true
    · rw [if_pos he] at h'; cases h'
    · rw [if_neg he] at h'
      have hl : fil.take k = l := Option.some.inj h'
      constructor
      · rw [← hl]
        refine List.length_pos.mpr (fun hnil => he ?_)
        rw [hnil]
        rfl
      · rw [← hl, List.length_take]
        exact min_le_left _ _
  · rw [if_neg hover] at h'
    by_cases he : fil.isEmpty = true
    · rw [if_pos he] at h'; cases h'
    · rw [if_neg he] at h'
      have hl : fil = l := Option.some.inj h'
      constructor
      · rw [← hl]
        refine List.length_pos.mpr (fun hnil => he ?_)
        rw [hnil]
        rfl
      · rw [← hl]
        exact le_of_not_lt hover

theorem octree_rounds_cells_bound {α : Type} (center : α → Vec3) (bounds : OctreeBounds)
    (k : ℕ) (fuel : ℕ) :
    ∀ (pending : List (Option OctantIndex × List α)) (occ : Finset OctantIndex)
      (final : List (OctantIndex × List α)) (occ' : Finset OctantIndex)
      (final' : List (OctantIndex × List α)),
      octree_rounds center bounds k fuel pending occ final = some (occ', final') →
      (∀ cell ∈ final, 1 ≤ cell.2.length ∧ cell.2.length ≤ k) →
      ∀ cell ∈ final', 1 ≤ cell.2.length ∧ cell.2.length ≤ k := by
  induction fuel with
  | zero =>
    intro pending occ final occ' final' h hinv
    cases pending with
    | nil =>
      have hp : (occ, final) = (occ', final') := Option.some.inj h
      have hf : final = final' := congrArg Prod.snd hp
      intro cell hc
      exact hinv cell (by rw [hf]; exact hc)
    | cons p rest => exact Option.noConfusion h
  | succ n ih =>
    intro pending occ final occ' final' h hinv
    cases pending with
    | nil =>
      have hp : (occ, final) = (occ', final') := Option.some.inj h
      have hf : final = final' := congrArg Prod.snd hp
      intro cell hc
      exact hinv cell (by rw [hf]; exact hc)
    | cons p rest =>
      have h' : octree_rounds center bounds k n
          ((sub_divide center (p :: rest) bounds k).filterMap
            (fun r => r.remaining_items.map (fun l => (some r.octant_index, l))))
          ((sub_divide center (p :: rest) bounds k).foldl
            (fun s r => occ_insert_chain r.octant_index.level r.octant_index s) occ)
          (final ++ (sub_divide center (p :: rest) bounds k).filterMap
            (fun r => r.assigned_items.map (fun l => (r.octant_index, l)))) =
          some (occ', final') := h
      refine ih _ _ _ _ _ h' ?_
      intro cell hcell
      rcases List.mem_append.mp hcell with hc | hc
      · exact hinv cell hc
      · obtain ⟨r, hrmem, hmap⟩ := List.mem_filterMap.mp hc
        cases ha : r.assigned_items with
        | none => rw [ha] at hmap; cases hmap
        | some l =>
          rw [ha] at hmap
          simp only [Option.map_some', Option.some.injEq] at hmap
          obtain ⟨q, hq, hr2⟩ := List.mem_flatMap.mp hrmem
          obtain ⟨child, hchild, hrc⟩ := List.mem_map.mp hr2
          rw [← hrc] at ha
          have hb := compute_child_result_assigned center bounds k child q.2 l ha
          rw [← hmap]
          simpa using hb

/-- **C6** (confirmed): in every octree build that completes, every cell of
the cells mapping holds at least `1` and at most `max_items_per_octant`
items; and when a child octant collects more than the cap in a round,
`compute_child_result` assigns exactly the first `max_items_per_octant`
filtered items to that octant and defers exactly the remainder as its
pending items. -/
theorem c6_octree_capacity {α : Type} (center lo hi : α → Vec3) (fuel : ℕ)
    (items : List α) (k : ℕ) (o : Octree α)
    (h : compute_octree center lo hi fuel items k = some (.ok o)) :
    (∀ cell ∈ o.cells, 1 ≤ cell.2.length ∧ cell.2.length ≤ k) ∧
    (∀ (bounds2 : OctreeBounds) (child : OctantIndex) (pending : List α),
      0 < k →
      k < (pending.filter (fun x =>
        (bounds2.get_octant_bounding_cube child).contains_point (center x))).length →
      compute_child_result center bounds2 k child pending =
        ⟨child,
         some ((pending.filter (fun x =>
           (bounds2.get_octant_bounding_cube child).contains_point (center x))).take k),
         some ((pending.filter (fun x =>
           (bounds2.get_octant_bounding_cube child).contains_point (center x))).drop k)⟩) := by
  constructor
  · unfold compute_octree at h
    cases hb : derive_octree_bounds lo hi items with
    | error e => rw [hb] at h; simp at h
    | ok bounds =>
      rw [hb] at h
      have h2 : Option.map (fun (r : Finset OctantIndex × List (OctantIndex × List α)) =>
          (Except.ok (⟨bounds, ⟨r.1⟩, r.2⟩ : Octree α) : Except Error (Octree α)))
          (octree_rounds center bounds k fuel [(none, items)] ∅ []) =
          some (Except.ok o) := h
      cases hr : octree_rounds center bounds k fuel [(none, items)] ∅ [] with
      | none => rw [hr] at h2; simp at h2
      | some r =>
        obtain ⟨occ2, final2⟩ := r
        rw [hr] at h2
        simp only [Option.map_some', Option.some.injEq, Except.ok.injEq] at h2
        intro cell hcell
        have hcells : o.cells = final2 := by rw [← h2]
        exact octree_rounds_cells_bound center bounds k fuel [(none, items)] ∅ []
          occ2 final2 hr (by simp) cell (by rw [← hcells]; exact hcell)
  · intro bounds2 child pending hk hover
    set fil := pending.filter (fun x =>
      (bounds2.get_octant_bounding_cube child).contains_point (center x)) with hfil
    have hlen : (fil.take k).length = k := by
      rw [List.length_take]
      exact min_eq_left (le_of_lt hover)
    have hne' : fil.take k ≠ [] := by
      intro hnil
      rw [hnil] at hlen
      simp at hlen
      omega
    have hne : ¬((fil.take k).isEmpty = true) := by
      intro he
      refine hne' ?_
      cases hcl : fil.take k with
      | nil => rfl
      | cons a as =>
        rw [hcl] at he
        cases he
    show (⟨child,
      if (if k < fil.length then fil.take k else fil).isEmpty = true then none
        else some (if k < fil.length then fil.take k else fil),
      if k < fil.length then some (fil.drop k) else none⟩ : IntermediateResult α) =
      ⟨child, some (fil.take k), some (fil.drop k)⟩
    rw [if_pos hover, if_pos hover, if_neg hne]

theorem c6_octree_capacity_witness :
    1 ≤ [(⟨1, 2, 3⟩ : Vec3)].length ∧ [(⟨1, 2, 3⟩ : Vec3)].length ≤ 1 :=
  (c6_octree_capacity (fun v => v) (fun v => v) (fun v => v) 1 [⟨1, 2, 3⟩] 1
    ⟨OctreeBounds.new ⟨⟨1, 2, 3⟩, ⟨1, 2, 3⟩⟩, ⟨∅⟩, [(OctantIndex.origin, [⟨1, 2, 3⟩])]⟩
    (by norm_num [compute_octree, derive_octree_bounds, fold_min, fold_max,
      OctreeBounds.new, AxisAlignedBoundingBox.new,
      AxisAlignedBoundingCube.from_power_of_two_enclosing_box,
      AxisAlignedBoundingBox.get_center, AxisAlignedBoundingBox.diagonal,
      next_strict_power_of_two, AxisAlignedBoundingCube.new_unchecked,
      octree_rounds, sub_divide, generate_child_pairs, compute_child_result,
      OctreeBounds.get_octant_bounding_cube, AxisAlignedBoundingCube.contains_point,
      Vec3.add, Vec3.sub, Vec3.smul, occ_insert_chain, OctantIndex.origin,
      List.filterMap_cons, List.filterMap_nil, List.filter_cons,
      List.filter_nil])).1
    (OctantIndex.origin, [⟨1, 2, 3⟩]) (by simp)

/-! ## Claim C7 -/

/-- **C7** (code bug): a completed build whose cells mapping assigns content
to the level-0 octant leaves that octant unregistered in the occupancy graph:
`add_cell_occupancy` only inserts nodes inside its
`while let Some(parent) = current.get_parent()` loop (octree/graph.rs:43-56),
and the level-0 index has no parent, so the loop body never runs and
`is_cell_occupied` stays `false` for a content-holding cell — contradicting
the claim that every content cell and its ancestors up to level 0 are
occupied. -/
theorem c7_level0_occupancy_missing :
    ∃ o : Octree Vec3,
      compute_octree (fun v => v) (fun v => v) (fun v => v) 1 [⟨0, 0, 0⟩] 1 =
        some (.ok o) ∧
      o.contains_content_cells OctantIndex.origin = true ∧
      o.occupancy_graph.is_cell_occupied OctantIndex.origin = false := by
  refine ⟨⟨OctreeBounds.new ⟨⟨0, 0, 0⟩, ⟨0, 0, 0⟩⟩, ⟨∅⟩,
    [(OctantIndex.origin, [⟨0, 0, 0⟩])]⟩, ?_, ?_, ?_⟩
  · norm_num [compute_octree, derive_octree_bounds, fold_min, fold_max,
      OctreeBounds.new, AxisAlignedBoundingBox.new,
      AxisAlignedBoundingCube.from_power_of_two_enclosing_box,
      AxisAlignedBoundingBox.get_center, AxisAlignedBoundingBox.diagonal,
      next_strict_power_of_two, AxisAlignedBoundingCube.new_unchecked,
      octree_rounds, sub_divide, generate_child_pairs, compute_child_result,
      OctreeBounds.get_octant_bounding_cube, AxisAlignedBoundingCube.contains_point,
      Vec3.add, Vec3.sub, Vec3.smul, occ_insert_chain, OctantIndex.origin,
      List.filterMap_cons, List.filterMap_nil, List.filter_cons, List.filter_nil]
  · rfl
  · rfl

end Ecoord
